import Mathlib

/-!
Shallow embedding of the gesso wallpaper engine (render/animation core) and
proofs about it.  Rust u32 arithmetic is embedded as Nat; the kernels below
never overflow u32 for the parameter ranges the program uses (t + inv = 256),
so Nat agrees with the machine semantics there.  Buffers (SHM mappings and
frames) are Lists of pixels (u32 values viewed as Nat).
-/

namespace Gesso

/-- Rgb: three 8-bit channels (spec.rs).  Channel bounds (< 256) are carried
as hypotheses where a theorem needs them. -/
structure Rgb where
  r : Nat
  g : Nat
  b : Nat
deriving DecidableEq

/-- Encoding of Rgb to one XRGB8888 pixel: (r shl 16) or (g shl 8) or b
(spec.rs, Rgb.xrgb8888 / util.rs xrgb8888). -/
def Rgb.xrgb8888 (c : Rgb) : Nat :=
  (c.r <<< 16) ||| (c.g <<< 8) ||| c.b

/-- Transition kind (spec.rs). -/
inductive Transition
  | none
  | fade
  | wipe
deriving DecidableEq

/-- Wipe direction (spec.rs). -/
inductive WipeFrom
  | left
  | right
deriving DecidableEq

/-- Image placement mode (spec.rs). -/
inductive Mode
  | fill
  | fit
  | stretch
  | center
  | tile
deriving DecidableEq

/-- TransitionSpec (spec.rs): kind, duration in milliseconds, wipe direction. -/
structure TransitionSpec where
  kind : Transition
  duration : Nat
  wipe_from : WipeFrom
deriving DecidableEq

/-! ## Pixel kernels (paint.rs) -/

/-- Embeds lerp_xrgb_u8_fast (paint.rs lines 173-184): XRGB8888 per-channel
lerp packing red+blue in one multiply and green in another. -/
def lerp_xrgb_u8_fast (a b t inv : Nat) : Nat :=
  let a_rb := a &&& 0x00FF00FF
  let b_rb := b &&& 0x00FF00FF
  let a_g := a &&& 0x0000FF00
  let b_g := b &&& 0x0000FF00
  let rb := ((a_rb * inv + b_rb * t) >>> 8) &&& 0x00FF00FF
  let g := ((a_g * inv + b_g * t) >>> 8) &&& 0x0000FF00
  rb ||| g

/-- Embeds lerp_to_solid (paint.rs lines 84-91, local fn inside
paint_blend_frame_to_solid_fast): the caller precomputes b_rb and b_g
by masking the solid target pixel. -/
def lerp_to_solid (a b_rb b_g t inv : Nat) : Nat :=
  let a_rb := a &&& 0x00FF00FF
  let a_g := a &&& 0x0000FF00
  let rb := ((a_rb * inv + b_rb * t) >>> 8) &&& 0x00FF00FF
  let g := ((a_g * inv + b_g * t) >>> 8) &&& 0x0000FF00
  rb ||| g

/-- The per-channel lerp formula of the spec: (x*(256-t) + y*t) shr 8. -/
def chanLerp (x y t : Nat) : Nat :=
  (x * (256 - t) + y * t) >>> 8

/-- Channel c of a packed XRGB8888 pixel (c = 0 blue, 1 green, 2 red, 3 the
unused X byte). -/
def chan (c px : Nat) : Nat :=
  (px >>> (8 * c)) &&& 0xFF

/-! ## Buffer-level paint functions (paint.rs)

A destination SHM mapping is a List Nat (the u32 view of the mmap).  The
Rust functions write dst[..n] in place; the embedding returns the new
contents of the mapping.  The source's 8-wide unrolled loops assign exactly
the same per-index values as the plain loops embedded here. -/

/-- Embeds paint_blend_frame_to_frame_fast (paint.rs lines 16-56) acting on
the destination mapping contents. -/
def paint_blend_frame_to_frame_fast (dst fromf tof : List Nat) (t256 : Nat) :
    List Nat :=
  let n := min dst.length (min fromf.length tof.length)
  if 256 ≤ t256 then tof.take n ++ dst.drop n
  else if t256 = 0 then fromf.take n ++ dst.drop n
  else
    List.zipWith (fun x y => lerp_xrgb_u8_fast x y t256 (256 - t256))
      (fromf.take n) (tof.take n) ++ dst.drop n

/-- Embeds paint_blend_frame_to_solid_fast (paint.rs lines 60-110) acting on
the destination mapping contents. -/
def paint_blend_frame_to_solid_fast (dst fromf : List Nat) (to_px t256 : Nat) :
    List Nat :=
  let n := min dst.length fromf.length
  if 256 ≤ t256 then List.replicate n to_px ++ dst.drop n
  else if t256 = 0 then fromf.take n ++ dst.drop n
  else
    let b_rb := to_px &&& 0x00FF00FF
    let b_g := to_px &&& 0x0000FF00
    (fromf.take n).map (fun x => lerp_to_solid x b_rb b_g t256 (256 - t256))
      ++ dst.drop n

/-! ## Row segment helpers

Embeddings of Rust slice operations used by the wipe kernels:
sliceL l off len embeds (and-ref l)[off..off+len]; copySeg embeds
dst[off..off+src.len()].copy_from_slice(src); fillSeg embeds
dst[off..off+cnt].fill(px). -/

/-- Read-only subslice l[off..off+len]. -/
def sliceL (l : List Nat) (off len : Nat) : List Nat :=
  (l.drop off).take len

/-- In-place copy of src into dst at offset off, returning new contents. -/
def copySeg (dst : List Nat) (off : Nat) (src : List Nat) : List Nat :=
  dst.take off ++ src ++ dst.drop (off + src.length)

/-- In-place fill of cnt pixels px into dst at offset off. -/
def fillSeg (dst : List Nat) (off cnt px : Nat) : List Nat :=
  dst.take off ++ List.replicate cnt px ++ dst.drop (off + cnt)

/-- One row of the Left-direction frame-to-frame wipe
(animations.rs lines 92-104, body of the per-row loop at row offset off):
dst[off..off+cols] from tof, dst[off+cols..off+w] from fromf. -/
def wipeRowLeft (w cols : Nat) (fromf tof dst : List Nat) (off : Nat) :
    List Nat :=
  let d1 := if 0 < cols then copySeg dst off (sliceL tof off cols) else dst
  if cols < w then copySeg d1 (off + cols) (sliceL fromf (off + cols) (w - cols))
  else d1

/-- One row of the Right-direction frame-to-frame wipe
(animations.rs lines 106-120): start = w - cols; dst[off..off+start] from
fromf, dst[off+start..off+w] from tof. -/
def wipeRowRight (w cols : Nat) (fromf tof dst : List Nat) (off : Nat) :
    List Nat :=
  let start := w - cols
  let d1 := if 0 < start then copySeg dst off (sliceL fromf off start) else dst
  if start < w then copySeg d1 (off + start) (sliceL tof (off + start) (w - start))
  else d1

/-- The row loop of paint_wipe_frame_to_frame_dir: rows 0..r-1 are painted
in order. -/
def wipeRows (w cols : Nat) (wf : WipeFrom) (fromf tof : List Nat) :
    Nat → List Nat → List Nat
  | 0, dst => dst
  | r + 1, dst =>
      let d := wipeRows w cols wf fromf tof r dst
      match wf with
      | .left => wipeRowLeft w cols fromf tof d (r * w)
      | .right => wipeRowRight w cols fromf tof d (r * w)

/-- Embeds paint_wipe_frame_to_frame_dir (animations.rs lines 63-122) acting
on the destination mapping contents. -/
def paint_wipe_frame_to_frame_dir (w h : Nat) (dst fromf tof : List Nat)
    (tt : Nat) (wf : WipeFrom) : List Nat :=
  if w = 0 ∨ h = 0 then dst
  else
    let tt2 := min tt 256
    let cols := min (w * tt2 / 256) w
    let n := min (w * h) (min dst.length (min fromf.length tof.length))
    if n < w then dst
    else wipeRows w cols wf fromf tof (n / w) dst

/-- One row of the Left-direction frame-to-solid wipe (paint.rs lines
149-157): dst[off..off+cols] filled with to_px, dst[off+cols..off+w] from
fromf.  The source writes both segments unconditionally; empty segments are
no-ops. -/
def wipeRowLeftSolid (w cols : Nat) (fromf : List Nat) (to_px : Nat)
    (dst : List Nat) (off : Nat) : List Nat :=
  let d1 := fillSeg dst off cols to_px
  copySeg d1 (off + cols) (sliceL fromf (off + cols) (w - cols))

/-- One row of the Right-direction frame-to-solid wipe (paint.rs lines
159-169): start = w - cols; dst[off..off+start] from fromf,
dst[off+start..off+w] filled with to_px. -/
def wipeRowRightSolid (w cols : Nat) (fromf : List Nat) (to_px : Nat)
    (dst : List Nat) (off : Nat) : List Nat :=
  let start := w - cols
  let d1 := copySeg dst off (sliceL fromf off start)
  fillSeg d1 (off + start) (w - start) to_px

/-- The row loop of paint_wipe_frame_to_solid_fast. -/
def wipeRowsSolid (w cols : Nat) (wf : WipeFrom) (fromf : List Nat)
    (to_px : Nat) : Nat → List Nat → List Nat
  | 0, dst => dst
  | r + 1, dst =>
      let d := wipeRowsSolid w cols wf fromf to_px r dst
      match wf with
      | .left => wipeRowLeftSolid w cols fromf to_px d (r * w)
      | .right => wipeRowRightSolid w cols fromf to_px d (r * w)

/-- Embeds paint_wipe_frame_to_solid_fast (paint.rs lines 114-171) acting on
the destination mapping contents. -/
def paint_wipe_frame_to_solid_fast (w h : Nat) (dst fromf : List Nat)
    (to_px t256 : Nat) (wf : WipeFrom) : List Nat :=
  if w = 0 ∨ h = 0 then dst
  else
    let frame_px := w * h
    let n := min dst.length (min fromf.length frame_px)
    if n < w then dst
    else if 256 ≤ t256 then List.replicate n to_px ++ dst.drop n
    else if t256 = 0 then fromf.take n ++ dst.drop n
    else
      let cols := min (min t256 256 * w / 256) w
      wipeRowsSolid w cols wf fromf to_px (n / w) dst

/-! ## Duration clamps at the animation boundary

Each transition entry point clamps the requested duration before its timing
loop; these definitions embed exactly those clamp expressions. -/

/-- Embeds animations.rs line 192 (animate): duration_ms.max(1). -/
def animate_duration_ms (d : Nat) : Nat := max d 1

/-- Embeds colour.rs line 197 (transition_to_on): duration_ms.max(16). -/
def transition_to_on_duration_ms (d : Nat) : Nat := max d 16

/-- Embeds image.rs line 278 (fade_to_cached): duration.max(1). -/
def fade_to_cached_duration_ms (d : Nat) : Nat := max d 1

/-- Embeds image.rs line 393 (fade_image): duration.max(1). -/
def fade_image_duration_ms (d : Nat) : Nat := max d 1

/-- Embeds image.rs line 582 (wipe_to_cached): duration.max(1). -/
def wipe_to_cached_duration_ms (d : Nat) : Nat := max d 1

/-- Embeds image.rs line 696 (wipe_image): duration.max(1). -/
def wipe_image_duration_ms (d : Nat) : Nat := max d 1

/-! ## Frame cache (cache.rs)

The on-disk cache is modelled as a pure state: the MRU index (cache_index.json,
head = most recent), the frame files (an association list keyed by
(entry id, surface index, width, height), head = latest write, mirroring the
atomic overwrite of store_frame), and last_match.json. -/

/-- ImageKey (cache.rs lines 62-71): cache identity for an image spec. -/
structure ImageKey where
  path : String
  mode : Mode
  colour : Rgb
  size : Nat
  mtime_secs : Nat
  mtime_nanos : Nat
deriving DecidableEq

/-- CacheEntry (cache.rs lines 79-84). -/
structure CacheEntry where
  id : Nat
  key : ImageKey
  created_secs : Nat
deriving DecidableEq

/-- Key of a stored frame file: (entry id, surface index, width, height)
(cache.rs frame_path). -/
abbrev FrameKey := Nat × Nat × Nat × Nat

/-- The cache's on-disk state. -/
structure CacheState where
  entries : List CacheEntry
  frames : List (FrameKey × List Nat)
  last_match : Option Nat
deriving DecidableEq

/-- MAX_CACHED_IMAGES (cache.rs line 16). -/
def MAX_CACHED_IMAGES : Nat := 5

/-- Embeds prune_index_and_frames (cache.rs lines 158-170): while more than
MAX_CACHED_IMAGES entries remain, pop the last (least-recent) entry and
remove its frames directory.  The fuel argument is the entry count at the
call, enough for the loop to run to completion. -/
def pruneLoop : Nat → List CacheEntry → List (FrameKey × List Nat) →
    List CacheEntry × List (FrameKey × List Nat)
  | 0, es, fs => (es, fs)
  | fuel + 1, es, fs =>
      if es.length ≤ MAX_CACHED_IMAGES then (es, fs)
      else
        match es.getLast? with
        | some old => pruneLoop fuel es.dropLast (fs.filter (fun p => p.1.1 ≠ old.id))
        | none => (es, fs)

/-- Embeds Vec::remove at the first position matching p (the
position-then-remove pair in record_cached_image), returning the removed
entry and the remainder. -/
def extractFirst (p : CacheEntry → Bool) : List CacheEntry →
    Option (CacheEntry × List CacheEntry)
  | [] => none
  | e :: es =>
      if p e then some (e, es)
      else
        match extractFirst p es with
        | some (f, rest) => some (f, e :: rest)
        | none => none

/-- Embeds record_cached_image (cache.rs lines 277-311).  newId embeds the
nanosecond timestamp of new_entry_id, now embeds now_secs; both are
environment inputs.  Returns the updated cache state and the entry id to
write frames under. -/
def record_cached_image (st : CacheState) (key : ImageKey) (newId now : Nat) :
    CacheState × Nat :=
  match extractFirst (fun e => e.key = key) st.entries with
  | some (e, rest) =>
      let es0 := { e with created_secs := now } :: rest
      let p := pruneLoop es0.length es0 st.frames
      ({ st with entries := p.1, frames := p.2 }, e.id)
  | none =>
      let es0 := ⟨newId, key, now⟩ :: st.entries
      let p := pruneLoop es0.length es0 st.frames
      ({ st with entries := p.1, frames := p.2 }, newId)

/-- Embeds find_cached_entry_id (cache.rs lines 315-333): first entry whose
key equals the spec's key; on a hit also writes last_match.json. -/
def find_cached_entry_id (st : CacheState) (key : ImageKey) :
    CacheState × Option Nat :=
  match st.entries.find? (fun e => e.key = key) with
  | some e => ({ st with last_match := some e.id }, some e.id)
  | none => (st, none)

/-- Embeds load_frame (cache.rs lines 390-441): read the frame file; None on
a missing file or a size mismatch (the byte check len = w*h*4 becomes the
pixel check len = w*h). -/
def load_frame (st : CacheState) (id si w h : Nat) : Option (List Nat) :=
  match st.frames.find? (fun p => p.1 = (id, si, w, h)) with
  | some pr => if pr.2.length = w * h then some pr.2 else none
  | none => none

/-- Embeds store_frame (cache.rs lines 443-474): atomic overwrite of the
frame file. -/
def store_frame (st : CacheState) (id si w h : Nat) (frame : List Nat) :
    CacheState :=
  { st with frames := ((id, si, w, h), frame) :: st.frames }

/-- Modelled from the spec: load_last_frame is referenced by image.rs but its
definition is not under src/.  Per cache.rs comments (lines 55-58, 313-314,
372-373) callers do cached_image_matches(spec) then load_last_frame(si,w,h),
and find_cached_entry_id records the matching entry id into last_match.json
so load_last_frame can work: it reads that id and loads the frame under it. -/
def load_last_frame (st : CacheState) (si w h : Nat) : Option (List Nat) :=
  match st.last_match with
  | some id => load_frame st id si w h
  | none => none

/-- Modelled from the spec: the cache-miss branch of an Image apply.  The
store_last_frame function called by image.rs is not under src/; the spec
(section 4.7 step 6) says the engine shall record a new cache id, render,
animate, and store each finalized frame under that id.  This definition
composes record_cached_image with one store_frame per finalized
(surface index, width, height, frame) tuple, under the recorded id. -/
def record_and_store_frames (st : CacheState) (key : ImageKey) (newId now : Nat)
    (finals : List (Nat × Nat × Nat × List Nat)) : CacheState × Nat :=
  let p := record_cached_image st key newId now
  (finals.foldl (fun acc f => store_frame acc p.2 f.1 f.2.1 f.2.2.1 f.2.2.2) p.1,
    p.2)

/-! ## Engine state (wayland.rs)

Compositor handles are modelled by presence flags; SHM mappings by their
pixel contents (List Nat); the frame-callback object by a Bool (present or
not).  Event delivery (buffer release, frame done) is modelled explicitly
where a claim needs it. -/

/-- ShmBuf (wayland.rs lines 47-59): mapping contents, buffer-handle
presence, busy flag. -/
structure ShmBuf where
  mmap : Option (List Nat)
  buffer : Bool
  busy : Bool
deriving DecidableEq

/-- ShmBuf.is_ready (wayland.rs lines 56-58). -/
def ShmBuf.is_ready (s : ShmBuf) : Bool :=
  s.buffer && s.mmap.isSome

/-- DoubleBuffer (wayland.rs lines 61-129): two slots, current selects the
paint target. -/
structure DoubleBuffer where
  a : ShmBuf
  b : ShmBuf
  current : Nat
deriving DecidableEq

/-- The all-empty DoubleBuffer (DoubleBuffer::default()). -/
def DoubleBuffer.empty : DoubleBuffer :=
  ⟨⟨none, false, false⟩, ⟨none, false, false⟩, 0⟩

/-- current_mmap_mut as a read (wayland.rs lines 69-74). -/
def DoubleBuffer.current_mmap (d : DoubleBuffer) : Option (List Nat) :=
  match d.current with
  | 0 => d.a.mmap
  | _ => d.b.mmap

/-- Write the current mapping contents through f if the mapping exists
(the paint functions return early when current_mmap_mut is None). -/
def DoubleBuffer.withCurrentMmap (d : DoubleBuffer) (f : List Nat → List Nat) :
    DoubleBuffer :=
  match d.current with
  | 0 => match d.a.mmap with
         | some m => { d with a := { d.a with mmap := some (f m) } }
         | none => d
  | _ => match d.b.mmap with
         | some m => { d with b := { d.b with mmap := some (f m) } }
         | none => d

/-- current_buffer presence (wayland.rs lines 76-81). -/
def DoubleBuffer.current_buffer (d : DoubleBuffer) : Bool :=
  match d.current with
  | 0 => d.a.buffer
  | _ => d.b.buffer

/-- swap (wayland.rs lines 83-85). -/
def DoubleBuffer.swap (d : DoubleBuffer) : DoubleBuffer :=
  { d with current := 1 - d.current }

/-- both_ready (wayland.rs lines 88-90). -/
def DoubleBuffer.both_ready (d : DoubleBuffer) : Bool :=
  d.a.is_ready && d.b.is_ready

/-- current_is_busy (wayland.rs lines 92-97). -/
def DoubleBuffer.current_is_busy (d : DoubleBuffer) : Bool :=
  match d.current with
  | 0 => d.a.busy
  | _ => d.b.busy

/-- mark_current_busy (wayland.rs lines 99-104). -/
def DoubleBuffer.mark_current_busy (d : DoubleBuffer) : DoubleBuffer :=
  match d.current with
  | 0 => { d with a := { d.a with busy := true } }
  | _ => { d with b := { d.b with busy := true } }

/-- mark_free (wayland.rs lines 106-112). -/
def DoubleBuffer.mark_free (d : DoubleBuffer) (which : Nat) : DoubleBuffer :=
  if which = 0 then { d with a := { d.a with busy := false } }
  else { d with b := { d.b with busy := false } }

/-- swap_to_free (wayland.rs lines 114-120): flip current iff the other slot
is not busy. -/
def DoubleBuffer.swap_to_free (d : DoubleBuffer) : DoubleBuffer :=
  let other := 1 - d.current
  let other_busy := if other = 0 then d.a.busy else d.b.busy
  if other_busy then d else { d with current := other }

/-- SurfaceState (wayland.rs lines 138-168).  Handles are presence-only;
output_name is the compositor-delivered name. -/
structure SurfaceState where
  output_name : Option String
  alive : Bool
  width : Nat
  height : Nat
  configured : Bool
  stride : Nat
  size_bytes : Nat
  buffers : DoubleBuffer
  last_colour : Rgb
  has_image : Bool
  last_frame : Option (List Nat)
  frame_callback_ok : Bool
  frame_pending : Bool
  frame_cb : Bool
  frame_tick : Nat
deriving DecidableEq

/-- A blank surface row, used as the out-of-range default of list indexing. -/
def defaultSurface : SurfaceState :=
  ⟨none, false, 0, 0, false, 0, 0, DoubleBuffer.empty, ⟨0, 0, 0⟩, false, none,
    false, false, false, 0⟩

/-- Indexing into the surface table (engine.surfaces[i]). -/
def getS (ss : List SurfaceState) (i : Nat) : SurfaceState :=
  ss.getD i defaultSurface

/-- surface_usable (wayland.rs lines 751-754). -/
def surface_usable (s : SurfaceState) : Bool :=
  s.alive && s.configured && s.width != 0 && s.height != 0

/-- surface_selected (wayland.rs lines 756-759). -/
def surface_selected (s : SurfaceState) (output : Option String) : Bool :=
  match output with
  | none => true
  | some want => s.output_name == some want

/-- surface_matches_output (colour.rs lines 17-25): a surface with no name
yet matches only output = None. -/
def surface_matches_output (s : SurfaceState) (output : Option String) : Bool :=
  match s.output_name with
  | none => output.isNone
  | some name =>
      match output with
      | none => true
      | some want => name == want

/-- surface_matches_output_surface (image.rs lines 22-27). -/
def surface_matches_output_surface (s : SurfaceState) (output : Option String) :
    Bool :=
  match output with
  | none => true
  | some want => s.output_name == some want

/-- paint_frame_u32 (wayland.rs lines 902-908): blit frame[..n] into the
current mapping, n = min of lengths. -/
def paint_frame_u32 (s : SurfaceState) (frame : List Nat) : SurfaceState :=
  { s with buffers := s.buffers.withCurrentMmap (fun m =>
      let n := min m.length frame.length
      frame.take n ++ m.drop n) }

/-- commit_surface (wayland.rs lines 873-900): request a frame callback if
none pending; if a current buffer exists, attach-damage-commit, mark busy
and swap; otherwise log and leave the buffers untouched. -/
def commit_surface (s : SurfaceState) : SurfaceState :=
  let s :=
    if s.frame_pending then s
    else { s with frame_cb := true, frame_pending := true }
  if s.buffers.current_buffer then
    { s with buffers := s.buffers.mark_current_busy.swap }
  else s

/-! ## Buffer-readiness wait (wayland.rs wait_for_free_buffer_idx)

The loop pumps events in bounded time.  One WaitEnv describes what the
environment does during one loop iteration: which buffer releases and
frame-done callbacks the dispatch delivers, whether flush/dispatch raises an
IO error, and how much time the iteration consumes beyond the guaranteed
1 ms sleep (wayland.rs line 869), so each iteration advances elapsed time by
dt + 1 ≥ 1 ms. -/

structure WaitEnv where
  releaseA : Bool
  releaseB : Bool
  frameDone : Bool
  ioErr : Bool
  dt : Nat
deriving DecidableEq

/-- The hard-bail state update (wayland.rs lines 790-800): clear stuck
pacing state and return Ok. -/
def hardBail (s : SurfaceState) : SurfaceState :=
  { s with frame_pending := false, frame_cb := false, frame_callback_ok := false }

/-- Event delivery of one dispatch pass: buffer Release events mark slots
free (wayland.rs lines 1108-1124); a frame-callback Done event clears
frame_pending, drops the callback, bumps frame_tick and re-enables
callback pacing (wayland.rs lines 1126-1146). -/
def applyEnvStep (e : WaitEnv) (s : SurfaceState) : SurfaceState :=
  let s := if e.releaseA then { s with buffers := s.buffers.mark_free 0 } else s
  let s := if e.releaseB then { s with buffers := s.buffers.mark_free 1 } else s
  if e.frameDone then
    { s with frame_pending := false, frame_cb := false,
             frame_tick := s.frame_tick + 1, frame_callback_ok := true }
  else s

/-- The readiness test of the loop (wayland.rs lines 810-814). -/
def waitReady (s : SurfaceState) : Bool :=
  if s.frame_callback_ok then
    !s.buffers.current_is_busy && !s.frame_pending
  else
    !s.buffers.current_is_busy

/-- HARD_BAIL_AFTER in milliseconds (wayland.rs line 769). -/
def HARD_BAIL_AFTER : Nat := 1500

/-- DISABLE_FRAME_CB_AFTER in milliseconds (wayland.rs line 768). -/
def DISABLE_FRAME_CB_AFTER : Nat := 200

/-- One pass of the wait loop body between the readiness test and the next
iteration: the 200 ms frame-callback disable (wayland.rs lines 829-851). -/
def disableStale (elapsed : Nat) (s : SurfaceState) : SurfaceState :=
  if DISABLE_FRAME_CB_AFTER ≤ elapsed ∧ s.frame_callback_ok ∧ s.frame_pending
  then { s with frame_callback_ok := false, frame_pending := false,
                frame_cb := false }
  else s

/-- Embeds the loop of wait_for_free_buffer_idx (wayland.rs lines 763-871).
The fuel is structural; because every iteration advances elapsed by at
least 1 ms, a call entered with fuel + elapsed > HARD_BAIL_AFTER can only
exhaust fuel at elapsed ≥ HARD_BAIL_AFTER, where the fuel-0 branch performs
exactly the source's hard bail.  Returns the surface state and the number
of environment steps consumed, or an error if flush/dispatch raised one. -/
def waitLoopAux (env : Nat → WaitEnv) : Nat → SurfaceState → Nat → Nat →
    Except Unit (SurfaceState × Nat)
  | 0, s, _, k => .ok (hardBail s, k)
  | fuel + 1, s, elapsed, k =>
      if HARD_BAIL_AFTER ≤ elapsed then .ok (hardBail s, k)
      else
        let s :=
          if s.buffers.current_is_busy then
            { s with buffers := s.buffers.swap_to_free }
          else s
        if waitReady s then .ok (s, k)
        else
          let s := disableStale elapsed s
          if (env k).ioErr then .error ()
          else
            waitLoopAux env fuel (applyEnvStep (env k) s)
              (elapsed + (env k).dt + 1) (k + 1)

/-- wait_for_free_buffer_idx for one surface, driven by an environment
stream starting at index k0. -/
def wait_for_free_buffer_idx (s : SurfaceState) (env : Nat → WaitEnv)
    (k0 : Nat) : Except Unit (SurfaceState × Nat) :=
  waitLoopAux env (HARD_BAIL_AFTER + 1) s 0 k0

/-! ## Colour path (colour.rs) -/

/-- Body of the apply_solid_on per-surface loop (colour.rs lines 69-132).
Skipped surfaces (unusable, unmatched, all buffers busy, zero size) are left
untouched. -/
def apply_solid_one (target : Rgb) (output : Option String) (s : SurfaceState) :
    SurfaceState :=
  if ¬(surface_usable s ∧ surface_matches_output s output) then s
  else
    let s :=
      if s.buffers.current_is_busy then
        { s with buffers := s.buffers.swap_to_free }
      else s
    if s.buffers.current_is_busy then s
    else if s.width = 0 ∨ s.height = 0 then s
    else
      let frame := List.replicate (s.width * s.height) target.xrgb8888
      let s := commit_surface (paint_frame_u32 s frame)
      { s with last_colour := target, has_image := false,
               last_frame := some frame }

/-- Embeds apply_solid_on (colour.rs lines 53-152); always returns Ok. -/
def apply_solid_on (ss : List SurfaceState) (target : Rgb)
    (output : Option String) : List SurfaceState :=
  ss.map (apply_solid_one target output)

/-- The from-frame captured for a selected surface: the last frame, or a
solid frame of the last colour (colour.rs lines 229-234). -/
def capturedFrom (s : SurfaceState) : List Nat :=
  match s.last_frame with
  | some f => f
  | none => List.replicate (s.width * s.height) s.last_colour.xrgb8888

/-- from_frames of transition_to_on (colour.rs lines 216-235): Some for each
usable matching surface, None elsewhere. -/
def captureFromFrames (ss : List SurfaceState) (output : Option String) :
    List (Option (List Nat)) :=
  (List.range ss.length).map (fun i =>
    let s := getS ss i
    if surface_usable s ∧ surface_matches_output s output then
      some (capturedFrom s)
    else none)

/-- Indices selected by the colour path: usable and matching the output
filter. -/
def selectedColour (ss : List SurfaceState) (output : Option String) :
    List Nat :=
  (List.range ss.length).filter (fun i =>
    surface_usable (getS ss i) && surface_matches_output (getS ss i) output)

/-- The no-op detection scan (colour.rs lines 243-267): true iff some
selected surface needs painting. -/
def needsTransition (ss : List SurfaceState) (output : Option String)
    (from_frames : List (Option (List Nat))) (to_px : Nat) : Bool :=
  (List.range ss.length).any (fun i =>
    let s := getS ss i
    surface_usable s && surface_matches_output s output &&
      (match from_frames.getD i none with
       | some fromf => fromf.any (fun px => px != to_px)
       | none => s.last_colour.xrgb8888 != to_px))

/-- Sequential composition over a list of surface indices of a fallible
per-surface step threading (surfaces, environment-stream position). -/
def foldSurf (f : List SurfaceState × Nat → Nat →
    Except Unit (List SurfaceState × Nat)) :
    List Nat → List SurfaceState × Nat → Except Unit (List SurfaceState × Nat)
  | [], acc => .ok acc
  | i :: rest, acc => do
      let acc2 ← f acc i
      foldSurf f rest acc2

/-- One surface of a colour animation tick (colour.rs lines 298-321): wait
for a free buffer, paint the solid-target kernel for this kind at parameter
tt into the current mapping, commit. -/
def colourTickOne (kind : Transition) (wf : WipeFrom) (to_px : Nat)
    (output : Option String) (from_frames : List (Option (List Nat)))
    (envs : Nat → WaitEnv) (tt : Nat) (acc : List SurfaceState × Nat)
    (i : Nat) : Except Unit (List SurfaceState × Nat) :=
  let s := getS acc.1 i
  if ¬(surface_usable s ∧ surface_matches_output s output) then .ok acc
  else
    match from_frames.getD i none with
    | none => .ok acc
    | some fromf => do
        let (s1, k1) ← wait_for_free_buffer_idx s envs acc.2
        let s2 :=
          match kind with
          | .wipe =>
              { s1 with buffers := s1.buffers.withCurrentMmap (fun m =>
                  paint_wipe_frame_to_solid_fast s1.width s1.height m fromf
                    to_px tt wf) }
          | .fade =>
              { s1 with buffers := s1.buffers.withCurrentMmap (fun m =>
                  paint_blend_frame_to_solid_fast m fromf to_px tt) }
          | .none => s1
        .ok (acc.1.set i (commit_surface s2), k1)

/-- The timing loop of transition_to_on (colour.rs lines 287-325), with the
sampled eased clock abstracted as the list tts of successive tt values. -/
def colourAnimLoop (kind : Transition) (wf : WipeFrom) (to_px : Nat)
    (output : Option String) (from_frames : List (Option (List Nat)))
    (envs : Nat → WaitEnv) :
    List Nat → List SurfaceState × Nat → Except Unit (List SurfaceState × Nat)
  | [], acc => .ok acc
  | tt :: rest, acc => do
      let acc2 ← foldSurf
        (colourTickOne kind wf to_px output from_frames envs tt)
        (List.range acc.1.length) acc
      colourAnimLoop kind wf to_px output from_frames envs rest acc2

/-- One surface of the colour finalization pass (colour.rs lines 328-352):
wait, then paint the exact target frame and update last_colour, has_image,
last_frame. -/
def colourFinalizeOne (target : Rgb) (to_px : Nat) (output : Option String)
    (envs : Nat → WaitEnv) (acc : List SurfaceState × Nat) (i : Nat) :
    Except Unit (List SurfaceState × Nat) :=
  let s := getS acc.1 i
  if ¬(surface_usable s ∧ surface_matches_output s output) then .ok acc
  else do
    let (s1, k1) ← wait_for_free_buffer_idx s envs acc.2
    if s1.width = 0 ∨ s1.height = 0 then .ok (acc.1.set i s1, k1)
    else
      let finalf := List.replicate (s1.width * s1.height) to_px
      let s2 := commit_surface (paint_frame_u32 s1 finalf)
      let s3 := { s2 with last_colour := target, has_image := false,
                          last_frame := some finalf }
      .ok (acc.1.set i s3, k1)

/-- Embeds transition_to_on (colour.rs lines 184-364).  The wall-clock
sampling of the render loop is abstracted by tts (the successive quantized
tt values); envs drives buffer-release/frame-done delivery inside the waits.
The trailing flush and dispatch_pending only deliver further release/done
events and are not modelled. -/
def transition_to_on (ss : List SurfaceState) (target : Rgb)
    (kind : Transition) (duration_ms : Nat) (output : Option String)
    (wf : WipeFrom) (tts : List Nat) (envs : Nat → WaitEnv) :
    Except Unit (List SurfaceState) :=
  if kind = Transition.none then .ok (apply_solid_on ss target output)
  else
    let _dur := transition_to_on_duration_ms duration_ms
    let from_frames := captureFromFrames ss output
    if (selectedColour ss output).length = 0 then .ok ss
    else
      let to_px := target.xrgb8888
      if ¬needsTransition ss output from_frames to_px then
        .ok (ss.map (fun s =>
          if surface_matches_output s output then
            { s with last_colour := target, has_image := false }
          else s))
      else do
        let acc1 ← colourAnimLoop kind wf to_px output from_frames envs tts
          (ss, 0)
        let acc2 ← foldSurf (colourFinalizeOne target to_px output envs)
          (List.range acc1.1.length) acc1
        .ok acc2.1

/-! ## Image path (image.rs) -/

/-- from_frames capture of the image transitions (image.rs lines 406-428 and
the parallel blocks of the other three): the filter is configured with
nonzero size and matching output. -/
def imageSelected (s : SurfaceState) (output : Option String) : Bool :=
  s.configured && s.width != 0 && s.height != 0 &&
    surface_matches_output_surface s output

/-- from_frames of the image transitions. -/
def imageFromFrames (ss : List SurfaceState) (output : Option String) :
    List (Option (List Nat)) :=
  (List.range ss.length).map (fun i =>
    let s := getS ss i
    if imageSelected s output then some (capturedFrom s) else none)

/-- to_frames of the fresh-render transitions (image.rs lines 435-449 and
738-752): one rendered frame per selected surface.  The render argument
abstracts render_final_frame_u32 applied to the fixed decoded source, mode
and background: it maps (width, height) to the rendered frame. -/
def imageToFrames (ss : List SurfaceState) (output : Option String)
    (render : Nat → Nat → List Nat) : List (Option (List Nat)) :=
  (List.range ss.length).map (fun i =>
    let s := getS ss i
    if imageSelected s output then some (render s.width s.height) else none)

/-- One surface of an image present pass (image.rs present_blend_frame lines
229-263 and present_wipe_frame lines 533-567): wait, paint the frame-to-frame
kernel, commit.  For the wipe kind the kernel paint_wipe_frame_to_frame_fast
is not under src/; modelled from the spec section 4.1 directional wipe, with
the Left direction since image.rs passes no direction argument. -/
def imageTickOne (kind : Transition) (output : Option String)
    (from_frames to_frames : List (Option (List Nat))) (envs : Nat → WaitEnv)
    (tt : Nat) (acc : List SurfaceState × Nat) (i : Nat) :
    Except Unit (List SurfaceState × Nat) :=
  let s := getS acc.1 i
  if ¬(surface_usable s ∧ surface_matches_output_surface s output) then .ok acc
  else
    match from_frames.getD i none, to_frames.getD i none with
    | some fromf, some tof => do
        let (s1, k1) ← wait_for_free_buffer_idx s envs acc.2
        let s2 :=
          match kind with
          | .wipe =>
              { s1 with buffers := s1.buffers.withCurrentMmap (fun m =>
                  paint_wipe_frame_to_frame_dir s1.width s1.height m fromf tof
                    tt WipeFrom.left) }
          | _ =>
              { s1 with buffers := s1.buffers.withCurrentMmap (fun m =>
                  paint_blend_frame_to_frame_fast m fromf tof tt) }
        .ok (acc.1.set i (commit_surface s2), k1)
    | _, _ => .ok acc

/-- The timing loop of the image transitions, clock abstracted as tts. -/
def imageAnimLoop (kind : Transition) (output : Option String)
    (from_frames to_frames : List (Option (List Nat))) (envs : Nat → WaitEnv) :
    List Nat → List SurfaceState × Nat → Except Unit (List SurfaceState × Nat)
  | [], acc => .ok acc
  | tt :: rest, acc => do
      let acc2 ← foldSurf
        (imageTickOne kind output from_frames to_frames envs tt)
        (List.range acc.1.length) acc
      imageAnimLoop kind output from_frames to_frames envs rest acc2

/-- One surface of the image finalization pass (image.rs lines 482-514,
645-669, 785-817, 342-366): wait, paint the exact target frame, update
last_colour := bg, has_image := true, last_frame := target.  The
store_last_frame cache write of the fresh paths touches only the frame
cache (its definition is not under src/; see record_and_store_frames), not
the surface state. -/
def imageFinalizeOne (bg : Rgb) (output : Option String)
    (to_frames : List (Option (List Nat))) (envs : Nat → WaitEnv)
    (acc : List SurfaceState × Nat) (i : Nat) :
    Except Unit (List SurfaceState × Nat) :=
  let s := getS acc.1 i
  if ¬(surface_usable s ∧ surface_matches_output_surface s output) then .ok acc
  else
    match to_frames.getD i none with
    | none => .ok acc
    | some finalf => do
        let (s1, k1) ← wait_for_free_buffer_idx s envs acc.2
        let s2 := commit_surface (paint_frame_u32 s1 finalf)
        let s3 := { s2 with last_colour := bg, has_image := true,
                            last_frame := some finalf }
        .ok (acc.1.set i s3, k1)

/-- Whether the finalization pass painted at least one surface (the
any_final flag of image.rs lines 480-516 / 783-819). -/
def imageAnyFinal (ss : List SurfaceState) (output : Option String)
    (to_frames : List (Option (List Nat))) : Bool :=
  (List.range ss.length).any (fun i =>
    surface_usable (getS ss i) &&
    surface_matches_output_surface (getS ss i) output &&
    (to_frames.getD i none).isSome)

/-- Embeds fade_image (image.rs lines 379-529) and the textually parallel
wipe_image (lines 682-832); kind selects the kernel.  Fails when no surface
is selected (lines 430-432, 733-735) and when nothing was finalized (lines
516-518, 819-821). -/
def image_transition_fresh (ss : List SurfaceState) (kind : Transition)
    (bg : Rgb) (duration : Nat) (output : Option String)
    (render : Nat → Nat → List Nat) (tts : List Nat) (envs : Nat → WaitEnv) :
    Except Unit (List SurfaceState) :=
  let _dur := fade_image_duration_ms duration
  let from_frames := imageFromFrames ss output
  if ¬(List.range ss.length).any (fun i => imageSelected (getS ss i) output)
  then .error ()
  else
    let to_frames := imageToFrames ss output render
    do
      let acc0 ← foldSurf
        (imageTickOne kind output from_frames to_frames envs 0)
        (List.range ss.length) (ss, 0)
      let acc1 ← imageAnimLoop kind output from_frames to_frames envs tts acc0
      let acc2 ← foldSurf (imageFinalizeOne bg output to_frames envs)
        (List.range acc1.1.length) acc1
      if ¬imageAnyFinal acc1.1 output to_frames then .error ()
      else .ok acc2.1

/-- Embeds fade_to_cached (image.rs lines 265-377) and the parallel
wipe_to_cached (lines 569-680); to_frames are the cached frames.  When no
surface is selected these warn and return Ok with the surfaces untouched
(lines 308-311, 612-615). -/
def image_transition_cached (ss : List SurfaceState) (kind : Transition)
    (bg : Rgb) (duration : Nat) (output : Option String)
    (to_frames : List (Option (List Nat))) (tts : List Nat)
    (envs : Nat → WaitEnv) : Except Unit (List SurfaceState) :=
  let _dur := fade_to_cached_duration_ms duration
  let from_frames := imageFromFrames ss output
  if ¬(List.range ss.length).any (fun i => imageSelected (getS ss i) output)
  then .ok ss
  else do
    let acc0 ← foldSurf
      (imageTickOne kind output from_frames to_frames envs 0)
      (List.range ss.length) (ss, 0)
    let acc1 ← imageAnimLoop kind output from_frames to_frames envs tts acc0
    let acc2 ← foldSurf (imageFinalizeOne bg output to_frames envs)
      (List.range acc1.1.length) acc1
    .ok acc2.1

/-- One surface of apply_image_immediate (image.rs lines 860-898). -/
def imageImmediateOne (bg : Rgb) (output : Option String)
    (render : Nat → Nat → List Nat) (envs : Nat → WaitEnv)
    (acc : List SurfaceState × Nat) (i : Nat) :
    Except Unit (List SurfaceState × Nat) :=
  let s := getS acc.1 i
  if ¬(surface_usable s ∧ surface_matches_output_surface s output) then .ok acc
  else do
    let (s1, k1) ← wait_for_free_buffer_idx s envs acc.2
    let frame := render s1.width s1.height
    let s2 := commit_surface (paint_frame_u32 s1 frame)
    let s3 := { s2 with last_colour := bg, has_image := true,
                        last_frame := some frame }
    .ok (acc.1.set i s3, k1)

/-- Embeds apply_image_immediate (image.rs lines 836-912): fails when no
usable matching surface exists (lines 900-902). -/
def apply_image_immediate (ss : List SurfaceState) (bg : Rgb)
    (output : Option String) (render : Nat → Nat → List Nat)
    (envs : Nat → WaitEnv) : Except Unit (List SurfaceState) :=
  do
    let acc ← foldSurf (imageImmediateOne bg output render envs)
      (List.range ss.length) (ss, 0)
    if ¬(List.range ss.length).any (fun i =>
        surface_usable (getS ss i) &&
        surface_matches_output_surface (getS ss i) output)
    then .error ()
    else .ok acc.1

/-! ## Unset and the configure handler (wayland.rs) -/

/-- The per-output destroy branch of unset (wayland.rs lines 632-659). -/
def unsetDestroy (s : SurfaceState) : SurfaceState :=
  { s with alive := false, configured := false, width := 0, height := 0,
           stride := 0, size_bytes := 0, buffers := DoubleBuffer.empty,
           has_image := false, last_frame := none,
           frame_callback_ok := false, frame_pending := false,
           frame_cb := false }

/-- The global clear branch of unset (wayland.rs lines 660-678). -/
def unsetClear (s : SurfaceState) : SurfaceState :=
  { s with has_image := false, last_frame := none,
           frame_callback_ok := false, frame_pending := false,
           frame_cb := false }

/-- Embeds Engine::unset (wayland.rs lines 595-694), starting after
ensure_surfaces and wait_for_configured: an output filter naming no known
surface is an error; otherwise each selected surface is destroyed
(per-output) or cleared (global). -/
def Engine.unset (ss : List SurfaceState) (output : Option String) :
    Except Unit (List SurfaceState) :=
  match output with
  | some want =>
      if ¬ss.any (fun s => s.output_name == some want) then .error ()
      else
        let ss2 := ss.map (fun s =>
          if surface_selected s output then unsetDestroy s else s)
        if ¬ss.any (fun s => surface_selected s output) ∧ ¬ss.isEmpty then
          .error ()
        else .ok ss2
  | none =>
      let ss2 := ss.map (fun s =>
        if surface_selected s output then unsetClear s else s)
      if ¬ss.any (fun s => surface_selected s output) ∧ ¬ss.isEmpty then
        .error ()
      else .ok ss2

/-- Embeds the layer-surface Configure event handler (wayland.rs lines
1062-1083): the event's proxy identifies one surface (index target); if that
surface is alive, record the compositor-chosen size and set configured. -/
def on_layer_configure (ss : List SurfaceState) (target w h : Nat) :
    List SurfaceState :=
  let s := getS ss target
  if target < ss.length ∧ s.alive then
    ss.set target { s with width := w, height := h, configured := true }
  else ss

/-! ## Auxiliary definitions for the statements and witnesses -/

/-- The empty cache state (no index file on disk reads as an empty index,
cache.rs read_cache_index). -/
def emptyCache : CacheState :=
  { entries := [], frames := [], last_match := none }

/-- Iterated record_cached_image over a list of (key, newId, now) inputs. -/
def recordAll (st : CacheState) : List (ImageKey × Nat × Nat) → CacheState
  | [] => st
  | item :: rest =>
      recordAll (record_cached_image st item.1 item.2.1 item.2.2).1 rest

/-- The size-field invariant of the spec: configured implies nonzero size. -/
def size_invariant (s : SurfaceState) : Prop :=
  s.configured = true → 0 < s.width ∧ 0 < s.height

/-- An environment in which the compositor delivers no events and raises no
IO errors, and each wait iteration takes the minimal 1 ms. -/
def quietEnv : Nat → WaitEnv :=
  fun _ => ⟨false, false, false, false, 0⟩

/-- A configured, alive 2 by 1 test surface with both SHM slots ready and
free. -/
def testSurface : SurfaceState :=
  { output_name := some "HDMI-A-1", alive := true, width := 2, height := 1,
    configured := true, stride := 8, size_bytes := 8,
    buffers :=
      { a := { mmap := some [0, 0], buffer := true, busy := false },
        b := { mmap := some [0, 0], buffer := true, busy := false },
        current := 0 },
    last_colour := ⟨0, 0, 0⟩, has_image := false, last_frame := none,
    frame_callback_ok := false, frame_pending := false, frame_cb := false,
    frame_tick := 0 }

/-- The test surface with both SHM slots busy and a pending frame callback:
a compositor that never releases buffers nor delivers frame-done. -/
def stuckSurface : SurfaceState :=
  { testSurface with
    buffers :=
      { a := { mmap := some [0, 0], buffer := true, busy := true },
        b := { mmap := some [0, 0], buffer := true, busy := true },
        current := 0 },
    frame_callback_ok := true, frame_pending := true, frame_cb := true }

/-- A sample image key for cache witnesses. -/
def testKey : ImageKey :=
  { path := "a.png", mode := Mode.fill, colour := ⟨1, 2, 3⟩,
    size := 10, mtime_secs := 5, mtime_nanos := 7 }

/-- A second, distinct sample image key. -/
def testKey2 : ImageKey :=
  { path := "b.png", mode := Mode.fill, colour := ⟨1, 2, 3⟩,
    size := 11, mtime_secs := 6, mtime_nanos := 8 }

/-- The non-buffer, non-pacing fields of a surface: identity, geometry and
the last-painted state.  Waits, kernel paints and commits leave these
untouched; only the finalization passes and the explicit state updates
change them. -/
def coreOf (s : SurfaceState) :
    Option String × Bool × Nat × Nat × Bool × Nat × Nat × Rgb × Bool ×
      Option (List Nat) :=
  (s.output_name, s.alive, s.width, s.height, s.configured, s.stride,
    s.size_bytes, s.last_colour, s.has_image, s.last_frame)

/-! ## Theorems -/

/-! ### C4: duration clamps -/

/-- C4 counterexample: the colour transition path clamps a 1 ms request to
16 ms, contradicting the claim that every transition path clamps the
duration to at least 1 ms with no larger minimum. -/
theorem C4_counterexample :
    transition_to_on_duration_ms 1 = 16 ∧ ¬transition_to_on_duration_ms 1 = 1 := by
  constructor <;> decide

/-- C4 (amended): the image transition paths and the generic animate loop
clamp the requested duration to at least 1 ms (so any requested duration of
at least 1 ms is used unchanged), while the colour transition path
transition_to_on clamps to at least 16 ms. -/
theorem C4_amended (d : Nat) :
    (1 ≤ animate_duration_ms d ∧ (1 ≤ d → animate_duration_ms d = d))
    ∧ (1 ≤ fade_image_duration_ms d ∧ (1 ≤ d → fade_image_duration_ms d = d))
    ∧ (1 ≤ fade_to_cached_duration_ms d ∧
        (1 ≤ d → fade_to_cached_duration_ms d = d))
    ∧ (1 ≤ wipe_image_duration_ms d ∧ (1 ≤ d → wipe_image_duration_ms d = d))
    ∧ (1 ≤ wipe_to_cached_duration_ms d ∧
        (1 ≤ d → wipe_to_cached_duration_ms d = d))
    ∧ (16 ≤ transition_to_on_duration_ms d ∧
        (16 ≤ d → transition_to_on_duration_ms d = d)) := by
  simp only [animate_duration_ms, fade_image_duration_ms,
    fade_to_cached_duration_ms, wipe_image_duration_ms,
    wipe_to_cached_duration_ms, transition_to_on_duration_ms]
  exact ⟨⟨Nat.le_max_right d 1, fun h => Nat.max_eq_left h⟩,
    ⟨Nat.le_max_right d 1, fun h => Nat.max_eq_left h⟩,
    ⟨Nat.le_max_right d 1, fun h => Nat.max_eq_left h⟩,
    ⟨Nat.le_max_right d 1, fun h => Nat.max_eq_left h⟩,
    ⟨Nat.le_max_right d 1, fun h => Nat.max_eq_left h⟩,
    ⟨Nat.le_max_right d 16, fun h => Nat.max_eq_left h⟩⟩

/-- C4 witness: the amended statement applied at the concrete duration 20. -/
theorem C4_witness :
    1 ≤ animate_duration_ms 20 ∧ animate_duration_ms 20 = 20 ∧
    16 ≤ transition_to_on_duration_ms 20 ∧ transition_to_on_duration_ms 20 = 20 :=
  ⟨(C4_amended 20).1.1, (C4_amended 20).1.2 (by decide),
   (C4_amended 20).2.2.2.2.2.1, (C4_amended 20).2.2.2.2.2.2 (by decide)⟩

/-! ### Bit-level bridge lemmas for the blend kernels -/

/-- Dividing by a power of two shifts the bit index. -/
theorem testBit_div_pow (a n i : Nat) :
    (a / 2 ^ n).testBit i = a.testBit (n + i) := by
  simp only [Nat.testBit_to_div_mod, Nat.div_div_eq_div_mul, ← Nat.pow_add]

/-- Bits of the byte mask 255. -/
theorem testBit_255 (i : Nat) : Nat.testBit 255 i = decide (i < 8) := by
  rw [show (255 : Nat) = 2 ^ 8 - 1 by norm_num, Nat.testBit_two_pow_sub_one]

/-- Bits of a remainder modulo 256. -/
theorem testBit_mod_256 (x i : Nat) :
    (x % 256).testBit i = (decide (i < 8) && x.testBit i) := by
  rw [show (256 : Nat) = 2 ^ 8 by norm_num, Nat.testBit_mod_two_pow]

/-- Bits of a quotient by 256. -/
theorem testBit_div_256 (x i : Nat) :
    (x / 256).testBit i = x.testBit (8 + i) := by
  rw [show (256 : Nat) = 2 ^ 8 by norm_num, testBit_div_pow]

/-- The red-blue mask picks out bytes 0 and 2 of a word. -/
theorem maskRB_eq (a : Nat) :
    a &&& 0x00FF00FF = a % 256 + a / 65536 % 256 * 65536 := by
  apply Nat.eq_of_testBit_eq
  intro j
  have h1 : (0x00FF00FF : Nat) = 2 ^ 16 * (2 ^ 8 - 1) + (2 ^ 8 - 1) := by
    norm_num
  have h2 : a % 256 + a / 65536 % 256 * 65536
      = 2 ^ 16 * (a / 2 ^ 16 % 2 ^ 8) + a % 2 ^ 8 := by
    norm_num; ring
  have hb : (2 ^ 8 - 1 : Nat) < 2 ^ 16 := by norm_num
  have hm : a % 2 ^ 8 < 2 ^ 16 :=
    lt_trans (Nat.mod_lt _ (by norm_num)) (by norm_num)
  rw [Nat.testBit_and, h1, h2, Nat.testBit_mul_pow_two_add _ hb,
    Nat.testBit_mul_pow_two_add _ hm]
  by_cases hj : j < 16
  · simp only [if_pos hj, Nat.testBit_two_pow_sub_one, Nat.testBit_mod_two_pow]
    by_cases hj8 : j < 8 <;> simp [hj8]
  · simp only [if_neg hj, Nat.testBit_two_pow_sub_one, Nat.testBit_mod_two_pow,
      testBit_div_pow]
    by_cases hj8 : j - 16 < 8
    · simp [hj8, show 16 + (j - 16) = j by omega, Bool.and_comm]
    · simp [hj8]

/-- The green mask picks out byte 1 of a word. -/
theorem maskG_eq (a : Nat) :
    a &&& 0x0000FF00 = a / 256 % 256 * 256 := by
  apply Nat.eq_of_testBit_eq
  intro j
  have h1 : (0x0000FF00 : Nat) = 2 ^ 8 * 255 := by norm_num
  have h2 : a / 256 % 256 * 256 = 2 ^ 8 * (a / 2 ^ 8 % 2 ^ 8) := by
    norm_num; ring
  rw [Nat.testBit_and, h1, h2, Nat.testBit_mul_pow_two,
    Nat.testBit_mul_pow_two]
  by_cases hj : 8 ≤ j
  · by_cases hj8 : j - 8 < 8
    · simp [hj, hj8, testBit_255, testBit_mod_256, testBit_div_256,
        show 8 + (j - 8) = j by omega, Bool.and_comm]
    · simp [hj, hj8, testBit_255, testBit_mod_256]
  · simp [hj]

/-- Recombining disjoint byte fields: an or of the red-blue field and the
green field is their sum. -/
theorem or_compose {x0 x1 x2 : Nat} (h0 : x0 < 256) (h1 : x1 < 256)
    (_h2 : x2 < 256) :
    (x0 + x2 * 65536) ||| x1 * 256 = x0 + x1 * 256 + x2 * 65536 := by
  apply Nat.eq_of_testBit_eq
  intro j
  have e1 : x0 + x2 * 65536 = 2 ^ 16 * x2 + x0 := by norm_num; ring
  have e2 : x1 * 256 = 2 ^ 8 * x1 := by norm_num; ring
  have e3 : x0 + x1 * 256 + x2 * 65536 = 2 ^ 16 * x2 + (2 ^ 8 * x1 + x0) := by
    norm_num; ring
  have hx0 : x0 < 2 ^ 16 := lt_trans h0 (by norm_num)
  have hinner : 2 ^ 8 * x1 + x0 < 2 ^ 16 := by
    have : 2 ^ 8 * x1 ≤ 2 ^ 8 * 255 := Nat.mul_le_mul_left _ (by omega)
    omega
  have hx0b : x0 < 2 ^ 8 := h0
  rw [Nat.testBit_or, e1, e3, e2, Nat.testBit_mul_pow_two_add _ hx0,
    Nat.testBit_mul_pow_two_add _ hinner, Nat.testBit_mul_pow_two,
    Nat.testBit_mul_pow_two_add _ hx0b]
  by_cases hj16 : j < 16
  · simp only [if_pos hj16]
    by_cases hj8 : j < 8
    · simp [hj8, show ¬(8 ≤ j) by omega]
    · have hx0j : x0 < 2 ^ j := by
        have h28 : (2 : Nat) ^ 8 ≤ 2 ^ j :=
          Nat.pow_le_pow_right (by norm_num) (by omega)
        omega
      simp [hj8, show 8 ≤ j by omega, Nat.testBit_lt_two_pow hx0j]
  · have h8j : 8 ≤ j := by omega
    have hx1j : x1 < 2 ^ (j - 8) := by
      have h28 : (2 : Nat) ^ 8 ≤ 2 ^ (j - 8) :=
        Nat.pow_le_pow_right (by norm_num) (by omega)
      omega
    simp [hj16, h8j, Nat.testBit_lt_two_pow hx1j]

/-- A channel lerp with complementary weights stays below 256. -/
theorem chan_sum_bound {A B t inv : Nat} (hA : A < 256) (hB : B < 256)
    (h : t + inv = 256) : A * inv + B * t ≤ 255 * 256 := by
  have h1 : A * inv ≤ 255 * inv := Nat.mul_le_mul_right _ (by omega)
  have h2 : B * t ≤ 255 * t := Nat.mul_le_mul_right _ (by omega)
  have h3 : 255 * inv + 255 * t = 255 * 256 := by
    rw [← Nat.mul_add]; omega
  omega

/-- The packed red-blue computation of the kernels decomposes per channel. -/
theorem rb_mask_decomp {A0 A2 B0 B2 t inv : Nat} (h : t + inv = 256)
    (hA0 : A0 < 256) (hA2 : A2 < 256) (hB0 : B0 < 256) (hB2 : B2 < 256) :
    (((A0 + A2 * 65536) * inv + (B0 + B2 * 65536) * t) >>> 8) &&& 0x00FF00FF
      = (A0 * inv + B0 * t) / 256 + (A2 * inv + B2 * t) / 256 * 65536 := by
  have hprod : (A0 + A2 * 65536) * inv + (B0 + B2 * 65536) * t
      = (A0 * inv + B0 * t) + (A2 * inv + B2 * t) * 65536 := by ring
  set Y := A0 * inv + B0 * t with hYdef
  set X := A2 * inv + B2 * t with hXdef
  have hY : Y ≤ 255 * 256 := chan_sum_bound hA0 hB0 h
  have hX : X ≤ 255 * 256 := chan_sum_bound hA2 hB2 h
  have hshift : (Y + X * 65536) >>> 8 = Y / 256 + X * 256 := by
    rw [Nat.shiftRight_eq_div_pow,
      show X * 65536 = X * 256 * 256 by ring,
      show (2 : Nat) ^ 8 = 256 by norm_num,
      Nat.add_mul_div_right _ _ (by norm_num : (0 : Nat) < 256)]
  rw [hprod, hshift, maskRB_eq]
  have hu : Y / 256 < 256 := by omega
  have hv : X / 256 < 256 := by omega
  have e1 : (Y / 256 + X * 256) % 256 = Y / 256 := by omega
  have e2 : (Y / 256 + X * 256) / 65536 % 256 = X / 256 := by omega
  rw [e1, e2]

/-- The packed green computation of the kernels decomposes per channel. -/
theorem g_mask_decomp {A1 B1 t inv : Nat} (h : t + inv = 256)
    (hA1 : A1 < 256) (hB1 : B1 < 256) :
    ((A1 * 256 * inv + B1 * 256 * t) >>> 8) &&& 0x0000FF00
      = (A1 * inv + B1 * t) / 256 * 256 := by
  have hprod : A1 * 256 * inv + B1 * 256 * t = (A1 * inv + B1 * t) * 256 := by
    ring
  set Z := A1 * inv + B1 * t with hZdef
  have hZ : Z ≤ 255 * 256 := chan_sum_bound hA1 hB1 h
  have hshift : (Z * 256) >>> 8 = Z := by
    rw [Nat.shiftRight_eq_div_pow, show (2 : Nat) ^ 8 = 256 by norm_num,
      Nat.mul_div_cancel _ (by norm_num : (0 : Nat) < 256)]
  rw [hprod, hshift, maskG_eq]
  have : Z / 256 < 256 := by omega
  omega

/-- Channel bound for the per-channel lerp. -/
theorem chanLerp_lt {x y t : Nat} (hx : x < 256) (hy : y < 256)
    (ht : t ≤ 256) : chanLerp x y t < 256 := by
  have h := chan_sum_bound hx hy (show t + (256 - t) = 256 by omega)
  unfold chanLerp
  rw [Nat.shiftRight_eq_div_pow, show (2 : Nat) ^ 8 = 256 by norm_num]
  have hcomm : x * (256 - t) + y * t = x * (256 - t) + y * t := rfl
  omega

/-- The frame-to-frame lerp kernel equals the per-channel lerp formula on
each of the three colour channels. -/
theorem lerp_xrgb_chan_decomp (a b t : Nat) (ht : t ≤ 256) :
    lerp_xrgb_u8_fast a b t (256 - t) =
      chanLerp (a % 256) (b % 256) t
        + chanLerp (a / 256 % 256) (b / 256 % 256) t * 256
        + chanLerp (a / 65536 % 256) (b / 65536 % 256) t * 65536 := by
  have h : t + (256 - t) = 256 := by omega
  have hA0 : a % 256 < 256 := Nat.mod_lt _ (by norm_num)
  have hA1 : a / 256 % 256 < 256 := Nat.mod_lt _ (by norm_num)
  have hA2 : a / 65536 % 256 < 256 := Nat.mod_lt _ (by norm_num)
  have hB0 : b % 256 < 256 := Nat.mod_lt _ (by norm_num)
  have hB1 : b / 256 % 256 < 256 := Nat.mod_lt _ (by norm_num)
  have hB2 : b / 65536 % 256 < 256 := Nat.mod_lt _ (by norm_num)
  show (((a &&& 0x00FF00FF) * (256 - t) + (b &&& 0x00FF00FF) * t) >>> 8)
        &&& 0x00FF00FF
      ||| (((a &&& 0x0000FF00) * (256 - t) + (b &&& 0x0000FF00) * t) >>> 8)
        &&& 0x0000FF00
    = _
  rw [maskRB_eq a, maskRB_eq b, maskG_eq a, maskG_eq b,
    rb_mask_decomp h hA0 hA2 hB0 hB2, g_mask_decomp h hA1 hB1]
  have c0 : chanLerp (a % 256) (b % 256) t
      = (a % 256 * (256 - t) + b % 256 * t) / 256 := by
    unfold chanLerp
    rw [Nat.shiftRight_eq_div_pow, show (2 : Nat) ^ 8 = 256 by norm_num]
  have c1 : chanLerp (a / 256 % 256) (b / 256 % 256) t
      = (a / 256 % 256 * (256 - t) + b / 256 % 256 * t) / 256 := by
    unfold chanLerp
    rw [Nat.shiftRight_eq_div_pow, show (2 : Nat) ^ 8 = 256 by norm_num]
  have c2 : chanLerp (a / 65536 % 256) (b / 65536 % 256) t
      = (a / 65536 % 256 * (256 - t) + b / 65536 % 256 * t) / 256 := by
    unfold chanLerp
    rw [Nat.shiftRight_eq_div_pow, show (2 : Nat) ^ 8 = 256 by norm_num]
  rw [c0, c1, c2]
  apply or_compose
  · have := chan_sum_bound hA0 hB0 h
    omega
  · have := chan_sum_bound hA1 hB1 h
    omega
  · have := chan_sum_bound hA2 hB2 h
    omega

/-- The frame-to-solid kernel with premasked solid operands is the
frame-to-frame kernel. -/
theorem lerp_to_solid_eq (a b t inv : Nat) :
    lerp_to_solid a (b &&& 0x00FF00FF) (b &&& 0x0000FF00) t inv
      = lerp_xrgb_u8_fast a b t inv := rfl

/-- The per-channel lerp at t = 0 returns the first channel. -/
theorem chanLerp_zero (x y : Nat) : chanLerp x y 0 = x := by
  unfold chanLerp
  rw [Nat.shiftRight_eq_div_pow, show (2 : Nat) ^ 8 = 256 by norm_num]
  simp [Nat.mul_div_cancel]

/-- Monotonicity of the per-channel lerp numerator and quotient. -/
theorem chanLerp_mono_of_le {x y : Nat} (hxy : x ≤ y) {t1 t2 : Nat}
    (h12 : t1 ≤ t2) (h2 : t2 ≤ 256) :
    chanLerp x y t1 ≤ chanLerp x y t2 := by
  unfold chanLerp
  rw [Nat.shiftRight_eq_div_pow, Nat.shiftRight_eq_div_pow]
  apply Nat.div_le_div_right
  have h1 : t1 ≤ 256 := le_trans h12 h2
  obtain ⟨d, rfl⟩ := Nat.le.dest hxy
  have e1 : x * (256 - t1) + (x + d) * t1 = x * 256 + d * t1 := by
    obtain ⟨e, he⟩ := Nat.le.dest h1
    rw [show 256 - t1 = e by omega, ← he]
    ring
  have e2 : x * (256 - t2) + (x + d) * t2 = x * 256 + d * t2 := by
    obtain ⟨e, he⟩ := Nat.le.dest h2
    rw [show 256 - t2 = e by omega, ← he]
    ring
  rw [e1, e2]
  exact Nat.add_le_add_left (Nat.mul_le_mul_left _ h12) _

/-- Antitonicity of the per-channel lerp when the target channel is below
the source channel. -/
theorem chanLerp_anti_of_ge {x y : Nat} (hxy : y ≤ x) {t1 t2 : Nat}
    (h12 : t1 ≤ t2) (h2 : t2 ≤ 256) :
    chanLerp x y t2 ≤ chanLerp x y t1 := by
  unfold chanLerp
  rw [Nat.shiftRight_eq_div_pow, Nat.shiftRight_eq_div_pow]
  apply Nat.div_le_div_right
  have h1 : t1 ≤ 256 := le_trans h12 h2
  obtain ⟨d, rfl⟩ := Nat.le.dest hxy
  have e1 : (y + d) * (256 - t1) + y * t1 = y * 256 + d * (256 - t1) := by
    obtain ⟨e, he⟩ := Nat.le.dest h1
    rw [show 256 - t1 = e by omega, ← he]
    ring
  have e2 : (y + d) * (256 - t2) + y * t2 = y * 256 + d * (256 - t2) := by
    obtain ⟨e, he⟩ := Nat.le.dest h2
    rw [show 256 - t2 = e by omega, ← he]
    ring
  rw [e1, e2]
  exact Nat.add_le_add_left (Nat.mul_le_mul_left _ (by omega)) _

/-- Betweenness of the per-channel lerp: the value at the earlier parameter
lies between the source channel and the value at the later parameter. -/
theorem chanLerp_between {x y : Nat} (t1 t2 : Nat) (h12 : t1 ≤ t2)
    (h2 : t2 ≤ 256) :
    min x (chanLerp x y t2) ≤ chanLerp x y t1 ∧
      chanLerp x y t1 ≤ max x (chanLerp x y t2) := by
  rcases Nat.le_total x y with hxy | hxy
  · have h0 : chanLerp x y 0 ≤ chanLerp x y t1 :=
      chanLerp_mono_of_le hxy (Nat.zero_le _) (le_trans h12 h2)
    have h1 : chanLerp x y t1 ≤ chanLerp x y t2 :=
      chanLerp_mono_of_le hxy h12 h2
    rw [chanLerp_zero] at h0
    exact ⟨le_trans (min_le_left _ _) h0, le_trans h1 (le_max_right _ _)⟩
  · have h0 : chanLerp x y t1 ≤ chanLerp x y 0 :=
      chanLerp_anti_of_ge hxy (Nat.zero_le _) (le_trans h12 h2)
    have h1 : chanLerp x y t2 ≤ chanLerp x y t1 :=
      chanLerp_anti_of_ge hxy h12 h2
    rw [chanLerp_zero] at h0
    exact ⟨le_trans (min_le_right _ _) h1, le_trans h0 (le_max_left _ _)⟩

/-- Channel extraction agrees with byte arithmetic for c = 0, 1, 2. -/
theorem chan_eq_arith (px : Nat) :
    chan 0 px = px % 256 ∧ chan 1 px = px / 256 % 256 ∧
      chan 2 px = px / 65536 % 256 := by
  unfold chan
  refine ⟨?_, ?_, ?_⟩ <;>
    · rw [Nat.shiftRight_eq_div_pow,
        show (255 : Nat) = 2 ^ 8 - 1 by norm_num,
        Nat.and_pow_two_sub_one_eq_mod]
      try norm_num

/-- Channels of the per-channel recombination. -/
theorem chan_of_compose {x0 x1 x2 : Nat} (h0 : x0 < 256) (h1 : x1 < 256)
    (h2 : x2 < 256) (c : Nat) (hc : c < 3) :
    chan c (x0 + x1 * 256 + x2 * 65536)
      = if c = 0 then x0 else if c = 1 then x1 else x2 := by
  interval_cases c
  · rw [(chan_eq_arith _).1, if_pos rfl]
    omega
  · rw [(chan_eq_arith _).2.1, if_neg (by decide), if_pos rfl]
    omega
  · rw [(chan_eq_arith _).2.2, if_neg (by decide), if_neg (by decide)]
    omega

/-- The channel of a kernel output is the per-channel lerp of the operand
channels, for each colour channel c < 3. -/
theorem lerp_chan (a b t : Nat) (ht : t ≤ 256) (c : Nat) (hc : c < 3) :
    chan c (lerp_xrgb_u8_fast a b t (256 - t))
      = chanLerp (chan c a) (chan c b) t := by
  have hA0 : a % 256 < 256 := Nat.mod_lt _ (by norm_num)
  have hA1 : a / 256 % 256 < 256 := Nat.mod_lt _ (by norm_num)
  have hA2 : a / 65536 % 256 < 256 := Nat.mod_lt _ (by norm_num)
  have hB0 : b % 256 < 256 := Nat.mod_lt _ (by norm_num)
  have hB1 : b / 256 % 256 < 256 := Nat.mod_lt _ (by norm_num)
  have hB2 : b / 65536 % 256 < 256 := Nat.mod_lt _ (by norm_num)
  rw [lerp_xrgb_chan_decomp a b t ht,
    chan_of_compose (chanLerp_lt hA0 hB0 ht) (chanLerp_lt hA1 hB1 ht)
      (chanLerp_lt hA2 hB2 ht) c hc]
  interval_cases c
  · simp [(chan_eq_arith a).1, (chan_eq_arith b).1]
  · simp [(chan_eq_arith a).2.1, (chan_eq_arith b).2.1]
  · simp [(chan_eq_arith a).2.2, (chan_eq_arith b).2.2]

/-! ### C8: blend monotonicity, channel-wise -/

/-- C8: for all operand pixels, parameters t1 at most t2 at most 256, and
each colour channel, the channel of the blend kernel output at t1 lies
between the channel of the source pixel and the channel of the output at
t2; the kernel channel equals the per-channel lerp formula
(x*(256-t) + y*t) shr 8; and the same holds for the frame-to-solid kernel,
which agrees with the frame-to-frame kernel on premasked solid operands. -/
theorem C8_blend_monotone (a b t1 t2 c : Nat) (h12 : t1 ≤ t2) (h2 : t2 ≤ 256)
    (hc : c < 3) :
    (chan c (lerp_xrgb_u8_fast a b t1 (256 - t1))
        = chanLerp (chan c a) (chan c b) t1)
    ∧ (min (chan c a) (chan c (lerp_xrgb_u8_fast a b t2 (256 - t2)))
        ≤ chan c (lerp_xrgb_u8_fast a b t1 (256 - t1))
      ∧ chan c (lerp_xrgb_u8_fast a b t1 (256 - t1))
        ≤ max (chan c a) (chan c (lerp_xrgb_u8_fast a b t2 (256 - t2))))
    ∧ (min (chan c a)
          (chan c (lerp_to_solid a (b &&& 0x00FF00FF) (b &&& 0x0000FF00) t2
            (256 - t2)))
        ≤ chan c (lerp_to_solid a (b &&& 0x00FF00FF) (b &&& 0x0000FF00) t1
            (256 - t1))
      ∧ chan c (lerp_to_solid a (b &&& 0x00FF00FF) (b &&& 0x0000FF00) t1
            (256 - t1))
        ≤ max (chan c a)
            (chan c (lerp_to_solid a (b &&& 0x00FF00FF) (b &&& 0x0000FF00) t2
              (256 - t2)))) := by
  have h1 : t1 ≤ 256 := le_trans h12 h2
  have e1 := lerp_chan a b t1 h1 c hc
  have e2 := lerp_chan a b t2 h2 c hc
  have hbetween := chanLerp_between (x := chan c a) (y := chan c b) t1 t2 h12 h2
  exact ⟨e1,
    ⟨by rw [e1, e2]; exact hbetween.1, by rw [e1, e2]; exact hbetween.2⟩,
    ⟨by simp only [lerp_to_solid_eq]; rw [e1, e2]; exact hbetween.1,
     by simp only [lerp_to_solid_eq]; rw [e1, e2]; exact hbetween.2⟩⟩

/-- C8 witness: the theorem applied at pixels 0x123456 and 0xABCDEF with
t1 = 64, t2 = 192, on the red channel. -/
theorem C8_blend_monotone_witness :
    chan 2 (lerp_xrgb_u8_fast 0x123456 0xABCDEF 64 (256 - 64))
      = chanLerp (chan 2 0x123456) (chan 2 0xABCDEF) 64 :=
  (C8_blend_monotone 0x123456 0xABCDEF 64 192 2 (by decide) (by decide)
    (by decide)).1

/-! ### C10: the unused X byte never leaks through the blend kernels -/

/-- The frame-to-frame lerp kernel output is below 2 to the 24. -/
theorem lerp_xrgb_lt_two_pow (a b t inv : Nat) :
    lerp_xrgb_u8_fast a b t inv < 2 ^ 24 := by
  unfold lerp_xrgb_u8_fast
  exact Nat.or_lt_two_pow
    (Nat.and_lt_two_pow _ (by norm_num))
    (Nat.and_lt_two_pow _ (by norm_num))

/-- The frame-to-solid lerp kernel output is below 2 to the 24, for any
solid operands (the kernel re-masks its fields). -/
theorem lerp_to_solid_lt_two_pow (a b_rb b_g t inv : Nat) :
    lerp_to_solid a b_rb b_g t inv < 2 ^ 24 := by
  unfold lerp_to_solid
  exact Nat.or_lt_two_pow
    (Nat.and_lt_two_pow _ (by norm_num))
    (Nat.and_lt_two_pow _ (by norm_num))

/-- High byte of the frame-to-frame kernel output is zero. -/
theorem lerp_xrgb_shift24 (a b t inv : Nat) :
    lerp_xrgb_u8_fast a b t inv >>> 24 = 0 := by
  rw [Nat.shiftRight_eq_div_pow]
  exact Nat.div_eq_of_lt (lerp_xrgb_lt_two_pow a b t inv)

/-- High byte of the frame-to-solid kernel output is zero. -/
theorem lerp_to_solid_shift24 (a b_rb b_g t inv : Nat) :
    lerp_to_solid a b_rb b_g t inv >>> 24 = 0 := by
  rw [Nat.shiftRight_eq_div_pow]
  exact Nat.div_eq_of_lt (lerp_to_solid_lt_two_pow a b_rb b_g t inv)

/-- C10: for any input pixels with arbitrary high bytes and any tt strictly
between 0 and 256, every pixel written by the interior branch of the two
blend paint functions has its high byte (bits 24 to 31) equal to zero. -/
theorem C10_high_byte_zero (dst fromf tof : List Nat) (to_px t256 : Nat)
    (h0 : 0 < t256) (h1 : t256 < 256) :
    (∀ i, i < min dst.length (min fromf.length tof.length) →
      (paint_blend_frame_to_frame_fast dst fromf tof t256).getD i 0 >>> 24 = 0)
    ∧ (∀ i, i < min dst.length fromf.length →
      (paint_blend_frame_to_solid_fast dst fromf to_px t256).getD i 0 >>> 24
        = 0) := by
  constructor
  · intro i hi
    unfold paint_blend_frame_to_frame_fast
    rw [if_neg (by omega), if_neg (by omega)]
    have hif : i < fromf.length := by omega
    have hit : i < tof.length := by omega
    have hfi : fromf[i]? = some fromf[i] := List.getElem?_eq_getElem hif
    have hti : tof[i]? = some tof[i] := List.getElem?_eq_getElem hit
    have hlen : i < (List.zipWith
        (fun x y => lerp_xrgb_u8_fast x y t256 (256 - t256))
        (fromf.take (min dst.length (min fromf.length tof.length)))
        (tof.take (min dst.length (min fromf.length tof.length)))).length := by
      simp only [List.length_zipWith, List.length_take]
      omega
    rw [List.getD_eq_getElem?_getD, List.getElem?_append_left hlen,
      List.getElem?_zipWith, List.getElem?_take_of_lt (by omega),
      List.getElem?_take_of_lt (by omega), hfi, hti]
    exact lerp_xrgb_shift24 _ _ _ _
  · intro i hi
    unfold paint_blend_frame_to_solid_fast
    rw [if_neg (by omega), if_neg (by omega)]
    have hif : i < fromf.length := by omega
    have hfi : fromf[i]? = some fromf[i] := List.getElem?_eq_getElem hif
    have hlen : i < ((fromf.take (min dst.length fromf.length)).map
        (fun x => lerp_to_solid x (to_px &&& 0x00FF00FF) (to_px &&& 0x0000FF00)
          t256 (256 - t256))).length := by
      simp only [List.length_map, List.length_take]
      omega
    rw [List.getD_eq_getElem?_getD, List.getElem?_append_left hlen,
      List.getElem?_map, List.getElem?_take_of_lt (by omega), hfi]
    exact lerp_to_solid_shift24 _ _ _ _ _

/-- C10 witness: both conjuncts applied at a concrete 1-pixel buffer whose
operands carry garbage high bytes, at tt = 128. -/
theorem C10_high_byte_zero_witness :
    (paint_blend_frame_to_frame_fast [0] [0xDE123456] [0xBEABCDEF] 128).getD
        0 0 >>> 24 = 0
    ∧ (paint_blend_frame_to_solid_fast [0] [0xDE123456] 0xBEABCDEF 128).getD
        0 0 >>> 24 = 0 :=
  ⟨(C10_high_byte_zero [0] [0xDE123456] [0xBEABCDEF] 0xBEABCDEF 128
      (by decide) (by decide)).1 0 (by decide),
   (C10_high_byte_zero [0] [0xDE123456] [0xBEABCDEF] 0xBEABCDEF 128
      (by decide) (by decide)).2 0 (by decide)⟩

/-! ### C7: row structure of the directional wipe -/

/-- Subslice length under an in-bounds request. -/
theorem sliceL_length_of_le {l : List Nat} {off len : Nat}
    (h : off + len ≤ l.length) : (sliceL l off len).length = len := by
  simp [sliceL]
  omega

/-- Subslice lookup. -/
theorem sliceL_getElem? (l : List Nat) (off len k : Nat) (hk : k < len) :
    (sliceL l off len)[k]? = l[off + k]? := by
  rw [sliceL, List.getElem?_take_of_lt hk, List.getElem?_drop]

/-- Segment copy preserves the buffer length. -/
theorem copySeg_length {dst src : List Nat} {off : Nat}
    (h : off + src.length ≤ dst.length) :
    (copySeg dst off src).length = dst.length := by
  simp [copySeg]
  omega

/-- Segment copy lookup: inside the segment the source is read, outside the
destination is unchanged. -/
theorem copySeg_getElem? {dst src : List Nat} {off : Nat}
    (h : off + src.length ≤ dst.length) (i : Nat) :
    (copySeg dst off src)[i]? =
      if off ≤ i ∧ i < off + src.length then src[i - off]? else dst[i]? := by
  have htake : (dst.take off).length = off := by
    simp
    omega
  have hl1 : (dst.take off ++ src).length = off + src.length := by
    simp
    omega
  unfold copySeg
  by_cases hlo : i < off
  · rw [List.getElem?_append_left (by rw [hl1]; omega),
      List.getElem?_append_left (by rw [htake]; omega),
      List.getElem?_take_of_lt hlo, if_neg (by omega)]
  · by_cases hhi : i < off + src.length
    · rw [List.getElem?_append_left (by rw [hl1]; omega),
        List.getElem?_append_right (by rw [htake]; omega), htake,
        if_pos (by omega)]
    · rw [List.getElem?_append_right (by rw [hl1]; omega), hl1,
        List.getElem?_drop, if_neg (by omega)]
      congr 1
      omega

/-- Segment fill preserves the buffer length. -/
theorem fillSeg_length {dst : List Nat} {off cnt px : Nat}
    (h : off + cnt ≤ dst.length) :
    (fillSeg dst off cnt px).length = dst.length := by
  simp [fillSeg]
  omega

/-- Segment fill lookup. -/
theorem fillSeg_getElem? {dst : List Nat} {off cnt px : Nat}
    (h : off + cnt ≤ dst.length) (i : Nat) :
    (fillSeg dst off cnt px)[i]? =
      if off ≤ i ∧ i < off + cnt then some px else dst[i]? := by
  have htake : (dst.take off).length = off := by
    simp
    omega
  have hl1 : (dst.take off ++ List.replicate cnt px).length = off + cnt := by
    simp
    omega
  unfold fillSeg
  by_cases hlo : i < off
  · rw [List.getElem?_append_left (by rw [hl1]; omega),
      List.getElem?_append_left (by rw [htake]; omega),
      List.getElem?_take_of_lt hlo, if_neg (by omega)]
  · by_cases hhi : i < off + cnt
    · rw [List.getElem?_append_left (by rw [hl1]; omega),
        List.getElem?_append_right (by rw [htake]; omega), htake,
        if_pos (by omega), List.getElem?_replicate_of_lt (by omega)]
    · rw [List.getElem?_append_right (by rw [hl1]; omega), hl1,
        List.getElem?_drop, if_neg (by omega)]
      congr 1
      omega

/-- One Left wipe row preserves the buffer length. -/
theorem wipeRowLeft_length {w cols : Nat} {fromf tof dst : List Nat} {off : Nat}
    (hcols : cols ≤ w) (hdst : off + w ≤ dst.length)
    (hfrom : off + w ≤ fromf.length) (htof : off + w ≤ tof.length) :
    (wipeRowLeft w cols fromf tof dst off).length = dst.length := by
  unfold wipeRowLeft
  by_cases hc0 : 0 < cols
  · rw [if_pos hc0]
    have hs1 : (sliceL tof off cols).length = cols :=
      sliceL_length_of_le (by omega)
    have hd1 : (copySeg dst off (sliceL tof off cols)).length = dst.length := by
      rw [copySeg_length]
      rw [hs1]
      omega
    by_cases hcw : cols < w
    · rw [if_pos hcw]
      have hs2 : (sliceL fromf (off + cols) (w - cols)).length = w - cols :=
        sliceL_length_of_le (by omega)
      rw [copySeg_length]
      · exact hd1
      · rw [hs2, hd1]
        omega
    · rw [if_neg hcw]
      exact hd1
  · rw [if_neg hc0]
    by_cases hcw : cols < w
    · rw [if_pos hcw]
      have hs2 : (sliceL fromf (off + cols) (w - cols)).length = w - cols :=
        sliceL_length_of_le (by omega)
      rw [copySeg_length]
      rw [hs2]
      omega
    · rw [if_neg hcw]

/-- One Left wipe row: lookup characterization. -/
theorem wipeRowLeft_getElem? {w cols : Nat} {fromf tof dst : List Nat}
    {off : Nat} (hcols : cols ≤ w) (hdst : off + w ≤ dst.length)
    (hfrom : off + w ≤ fromf.length) (htof : off + w ≤ tof.length) (i : Nat) :
    (wipeRowLeft w cols fromf tof dst off)[i]? =
      if off ≤ i ∧ i < off + cols then tof[i]?
      else if off ≤ i ∧ i < off + w then fromf[i]?
      else dst[i]? := by
  unfold wipeRowLeft
  have hs1len : (sliceL tof off cols).length = cols :=
    sliceL_length_of_le (by omega)
  have hs2len : (sliceL fromf (off + cols) (w - cols)).length = w - cols :=
    sliceL_length_of_le (by omega)
  have hd1 : ∀ j, (if 0 < cols then copySeg dst off (sliceL tof off cols)
      else dst)[j]? =
      if off ≤ j ∧ j < off + cols then tof[j]? else dst[j]? := by
    intro j
    by_cases hc0 : 0 < cols
    · rw [if_pos hc0, copySeg_getElem? (by rw [hs1len]; omega), hs1len]
      by_cases hj : off ≤ j ∧ j < off + cols
      · rw [if_pos hj, if_pos hj, sliceL_getElem? _ _ _ _ (by omega)]
        congr 1
        omega
      · rw [if_neg hj, if_neg hj]
    · rw [if_neg hc0, if_neg (by omega)]
  have hd1len : (if 0 < cols then copySeg dst off (sliceL tof off cols)
      else dst).length = dst.length := by
    by_cases hc0 : 0 < cols
    · rw [if_pos hc0, copySeg_length]
      rw [hs1len]
      omega
    · rw [if_neg hc0]
  by_cases hcw : cols < w
  · rw [if_pos hcw, copySeg_getElem? (by rw [hs2len, hd1len]; omega), hs2len]
    by_cases hmid : off + cols ≤ i ∧ i < off + cols + (w - cols)
    · rw [if_pos hmid, sliceL_getElem? _ _ _ _ (by omega),
        if_neg (by omega), if_pos (by omega)]
      congr 1
      omega
    · rw [if_neg hmid, hd1]
      by_cases hlo : off ≤ i ∧ i < off + cols
      · rw [if_pos hlo, if_pos hlo]
      · rw [if_neg hlo, if_neg hlo, if_neg (by omega)]
  · rw [if_neg hcw, hd1]
    by_cases hlo : off ≤ i ∧ i < off + cols
    · rw [if_pos hlo, if_pos hlo]
    · rw [if_neg hlo, if_neg hlo, if_neg (by omega)]

/-- One Right wipe row preserves the buffer length. -/
theorem wipeRowRight_length {w cols : Nat} {fromf tof dst : List Nat}
    {off : Nat} (hcols : cols ≤ w) (hdst : off + w ≤ dst.length)
    (hfrom : off + w ≤ fromf.length) (htof : off + w ≤ tof.length) :
    (wipeRowRight w cols fromf tof dst off).length = dst.length := by
  simp only [wipeRowRight]
  have hs1 : (sliceL fromf off (w - cols)).length = w - cols :=
    sliceL_length_of_le (by omega)
  by_cases hc0 : 0 < w - cols
  · rw [if_pos hc0]
    have hd1 : (copySeg dst off (sliceL fromf off (w - cols))).length
        = dst.length := by
      rw [copySeg_length]
      rw [hs1]
      omega
    by_cases hsw : w - cols < w
    · rw [if_pos hsw]
      have hs2 : (sliceL tof (off + (w - cols)) (w - (w - cols))).length
          = w - (w - cols) := sliceL_length_of_le (by omega)
      rw [copySeg_length]
      · exact hd1
      · rw [hs2, hd1]
        omega
    · rw [if_neg hsw]
      exact hd1
  · rw [if_neg hc0]
    by_cases hsw : w - cols < w
    · rw [if_pos hsw]
      have hs2 : (sliceL tof (off + (w - cols)) (w - (w - cols))).length
          = w - (w - cols) := sliceL_length_of_le (by omega)
      rw [copySeg_length]
      rw [hs2]
      omega
    · rw [if_neg hsw]

/-- One Right wipe row: lookup characterization. -/
theorem wipeRowRight_getElem? {w cols : Nat} {fromf tof dst : List Nat}
    {off : Nat} (hcols : cols ≤ w) (hdst : off + w ≤ dst.length)
    (hfrom : off + w ≤ fromf.length) (htof : off + w ≤ tof.length) (i : Nat) :
    (wipeRowRight w cols fromf tof dst off)[i]? =
      if off ≤ i ∧ i < off + (w - cols) then fromf[i]?
      else if off ≤ i ∧ i < off + w then tof[i]?
      else dst[i]? := by
  simp only [wipeRowRight]
  have hs1len : (sliceL fromf off (w - cols)).length = w - cols :=
    sliceL_length_of_le (by omega)
  have hs2len : (sliceL tof (off + (w - cols)) (w - (w - cols))).length
      = w - (w - cols) := sliceL_length_of_le (by omega)
  have hd1 : ∀ j, (if 0 < w - cols
      then copySeg dst off (sliceL fromf off (w - cols)) else dst)[j]? =
      if off ≤ j ∧ j < off + (w - cols) then fromf[j]? else dst[j]? := by
    intro j
    by_cases hc0 : 0 < w - cols
    · rw [if_pos hc0, copySeg_getElem? (by rw [hs1len]; omega), hs1len]
      by_cases hj : off ≤ j ∧ j < off + (w - cols)
      · rw [if_pos hj, if_pos hj, sliceL_getElem? _ _ _ _ (by omega)]
        congr 1
        omega
      · rw [if_neg hj, if_neg hj]
    · rw [if_neg hc0, if_neg (by omega)]
  have hd1len : (if 0 < w - cols
      then copySeg dst off (sliceL fromf off (w - cols)) else dst).length
      = dst.length := by
    by_cases hc0 : 0 < w - cols
    · rw [if_pos hc0, copySeg_length]
      rw [hs1len]
      omega
    · rw [if_neg hc0]
  by_cases hsw : w - cols < w
  · rw [if_pos hsw, copySeg_getElem? (by rw [hs2len, hd1len]; omega), hs2len]
    by_cases hmid : off + (w - cols) ≤ i ∧ i < off + (w - cols) + (w - (w - cols))
    · rw [if_pos hmid, sliceL_getElem? _ _ _ _ (by omega),
        if_neg (by omega), if_pos (by omega)]
      congr 1
      omega
    · rw [if_neg hmid, hd1]
      by_cases hlo : off ≤ i ∧ i < off + (w - cols)
      · rw [if_pos hlo, if_pos hlo]
      · rw [if_neg hlo, if_neg hlo, if_neg (by omega)]
  · rw [if_neg hsw, hd1]
    by_cases hlo : off ≤ i ∧ i < off + (w - cols)
    · rw [if_pos hlo, if_pos hlo]
    · rw [if_neg hlo, if_neg hlo, if_neg (by omega)]

/-- The wipe row loop preserves the buffer length. -/
theorem wipeRows_length (w cols : Nat) (wf : WipeFrom) (fromf tof : List Nat)
    (hcols : cols ≤ w) (r : Nat) :
    ∀ dst : List Nat, r * w ≤ dst.length → r * w ≤ fromf.length →
      r * w ≤ tof.length →
      (wipeRows w cols wf fromf tof r dst).length = dst.length := by
  induction r with
  | zero => intro dst _ _ _; rfl
  | succ r ih =>
      intro dst hd hf ht
      have hstep : (r + 1) * w = r * w + w := by ring
      rw [hstep] at hd hf ht
      have hih := ih dst (by omega) (by omega) (by omega)
      simp only [wipeRows]
      cases wf with
      | left =>
          rw [wipeRowLeft_length hcols (by rw [hih]; omega) (by omega)
            (by omega)]
          exact hih
      | right =>
          rw [wipeRowRight_length hcols (by rw [hih]; omega) (by omega)
            (by omega)]
          exact hih

/-- The wipe row loop: lookup characterization.  Indices inside the painted
rows read the to or from frame split at the cols column; indices beyond are
unchanged. -/
theorem wipeRows_getElem? (w cols : Nat) (wf : WipeFrom) (fromf tof : List Nat)
    (hw : 0 < w) (hcols : cols ≤ w) (r : Nat) :
    ∀ dst : List Nat, r * w ≤ dst.length → r * w ≤ fromf.length →
      r * w ≤ tof.length → ∀ i : Nat,
      (wipeRows w cols wf fromf tof r dst)[i]? =
        if i < r * w then
          match wf with
          | .left => if i % w < cols then tof[i]? else fromf[i]?
          | .right => if i % w < w - cols then fromf[i]? else tof[i]?
        else dst[i]? := by
  induction r with
  | zero =>
      intro dst _ _ _ i
      simp [wipeRows]
  | succ r ih =>
      intro dst hd hf ht i
      have hstep : (r + 1) * w = r * w + w := by ring
      rw [hstep] at hd hf ht
      have hihlen := wipeRows_length w cols wf fromf tof hcols r dst
        (by omega) (by omega) (by omega)
      have hih := ih dst (by omega) (by omega) (by omega) i
      have hmod : ∀ x, x < w → (r * w + x) % w = x := by
        intro x hx
        rw [show r * w + x = w * r + x by ring, Nat.mul_add_mod]
        exact Nat.mod_eq_of_lt hx
      simp only [wipeRows]
      rw [hstep]
      cases wf with
      | left =>
          rw [wipeRowLeft_getElem? hcols (by rw [hihlen]; omega) (by omega)
            (by omega) i]
          by_cases hlo : i < r * w
          · rw [if_neg (by omega), if_neg (by omega), hih, if_pos hlo,
              if_pos (show i < r * w + w by omega)]
          · by_cases hc1 : i < r * w + cols
            · rw [if_pos ⟨by omega, hc1⟩, if_pos (by omega)]
              have hx := hmod (i - r * w) (by omega)
              rw [show r * w + (i - r * w) = i by omega] at hx
              rw [if_pos (by omega)]
            · by_cases hc2 : i < r * w + w
              · rw [if_neg (by omega), if_pos ⟨by omega, hc2⟩,
                  if_pos (by omega)]
                have hx := hmod (i - r * w) (by omega)
                rw [show r * w + (i - r * w) = i by omega] at hx
                rw [if_neg (by omega)]
              · rw [if_neg (by omega), if_neg (by omega), hih,
                  if_neg (by omega), if_neg (by omega)]
      | right =>
          rw [wipeRowRight_getElem? hcols (by rw [hihlen]; omega) (by omega)
            (by omega) i]
          by_cases hlo : i < r * w
          · rw [if_neg (by omega), if_neg (by omega), hih, if_pos hlo,
              if_pos (show i < r * w + w by omega)]
          · by_cases hc1 : i < r * w + (w - cols)
            · rw [if_pos ⟨show r * w ≤ i by omega, hc1⟩,
                if_pos (show i < r * w + w by omega)]
              have hx := hmod (i - r * w) (by omega)
              rw [show r * w + (i - r * w) = i by omega] at hx
              rw [if_pos (show i % w < w - cols by omega)]
            · by_cases hc2 : i < r * w + w
              · rw [if_neg (show ¬(r * w ≤ i ∧ i < r * w + (w - cols)) by omega),
                  if_pos ⟨show r * w ≤ i by omega, hc2⟩,
                  if_pos (show i < r * w + w by omega)]
                have hx := hmod (i - r * w) (by omega)
                rw [show r * w + (i - r * w) = i by omega] at hx
                rw [if_neg (show ¬(i % w < w - cols) by omega)]
              · rw [if_neg (show ¬(r * w ≤ i ∧ i < r * w + (w - cols)) by omega),
                  if_neg (show ¬(r * w ≤ i ∧ i < r * w + w) by omega), hih,
                  if_neg (show ¬(i < r * w) by omega),
                  if_neg (show ¬(i < r * w + w) by omega)]

/-- One Left solid wipe row preserves the buffer length. -/
theorem wipeRowLeftSolid_length {w cols : Nat} {fromf : List Nat}
    {to_px : Nat} {dst : List Nat} {off : Nat} (hcols : cols ≤ w)
    (hdst : off + w ≤ dst.length) (hfrom : off + w ≤ fromf.length) :
    (wipeRowLeftSolid w cols fromf to_px dst off).length = dst.length := by
  unfold wipeRowLeftSolid
  have h1 : (fillSeg dst off cols to_px).length = dst.length :=
    fillSeg_length (by omega)
  have hs : (sliceL fromf (off + cols) (w - cols)).length = w - cols :=
    sliceL_length_of_le (by omega)
  rw [copySeg_length]
  · exact h1
  · rw [hs, h1]
    omega

/-- One Left solid wipe row: lookup characterization. -/
theorem wipeRowLeftSolid_getElem? {w cols : Nat} {fromf : List Nat}
    {to_px : Nat} {dst : List Nat} {off : Nat} (hcols : cols ≤ w)
    (hdst : off + w ≤ dst.length) (hfrom : off + w ≤ fromf.length) (i : Nat) :
    (wipeRowLeftSolid w cols fromf to_px dst off)[i]? =
      if off ≤ i ∧ i < off + cols then some to_px
      else if off ≤ i ∧ i < off + w then fromf[i]?
      else dst[i]? := by
  unfold wipeRowLeftSolid
  have h1len : (fillSeg dst off cols to_px).length = dst.length :=
    fillSeg_length (by omega)
  have hs : (sliceL fromf (off + cols) (w - cols)).length = w - cols :=
    sliceL_length_of_le (by omega)
  rw [copySeg_getElem? (by rw [hs, h1len]; omega), hs]
  by_cases hmid : off + cols ≤ i ∧ i < off + cols + (w - cols)
  · rw [if_pos hmid, sliceL_getElem? _ _ _ _ (by omega),
      if_neg (by omega), if_pos (by omega)]
    congr 1
    omega
  · rw [if_neg hmid, fillSeg_getElem? (by omega)]
    by_cases hlo : off ≤ i ∧ i < off + cols
    · rw [if_pos hlo, if_pos hlo]
    · rw [if_neg hlo, if_neg hlo, if_neg (by omega)]

/-- One Right solid wipe row preserves the buffer length. -/
theorem wipeRowRightSolid_length {w cols : Nat} {fromf : List Nat}
    {to_px : Nat} {dst : List Nat} {off : Nat} (hcols : cols ≤ w)
    (hdst : off + w ≤ dst.length) (hfrom : off + w ≤ fromf.length) :
    (wipeRowRightSolid w cols fromf to_px dst off).length = dst.length := by
  simp only [wipeRowRightSolid]
  have hs : (sliceL fromf off (w - cols)).length = w - cols :=
    sliceL_length_of_le (by omega)
  have h1 : (copySeg dst off (sliceL fromf off (w - cols))).length
      = dst.length := by
    rw [copySeg_length]
    rw [hs]
    omega
  rw [fillSeg_length]
  · exact h1
  · rw [h1]
    omega

/-- One Right solid wipe row: lookup characterization. -/
theorem wipeRowRightSolid_getElem? {w cols : Nat} {fromf : List Nat}
    {to_px : Nat} {dst : List Nat} {off : Nat} (hcols : cols ≤ w)
    (hdst : off + w ≤ dst.length) (hfrom : off + w ≤ fromf.length) (i : Nat) :
    (wipeRowRightSolid w cols fromf to_px dst off)[i]? =
      if off ≤ i ∧ i < off + (w - cols) then fromf[i]?
      else if off ≤ i ∧ i < off + w then some to_px
      else dst[i]? := by
  simp only [wipeRowRightSolid]
  have hs : (sliceL fromf off (w - cols)).length = w - cols :=
    sliceL_length_of_le (by omega)
  have h1len : (copySeg dst off (sliceL fromf off (w - cols))).length
      = dst.length := by
    rw [copySeg_length]
    rw [hs]
    omega
  rw [fillSeg_getElem? (by rw [h1len]; omega)]
  by_cases hmid : off + (w - cols) ≤ i ∧ i < off + (w - cols) + (w - (w - cols))
  · rw [if_pos (by omega : off + (w - cols) ≤ i ∧ i < off + (w - cols)
        + (w - (w - cols))), if_neg (by omega), if_pos (by omega)]
  · rw [if_neg (by omega : ¬(off + (w - cols) ≤ i ∧ i < off + (w - cols)
        + (w - (w - cols)))), copySeg_getElem? (by rw [hs]; omega), hs]
    by_cases hlo : off ≤ i ∧ i < off + (w - cols)
    · rw [if_pos hlo, if_pos hlo, sliceL_getElem? _ _ _ _ (by omega)]
      congr 1
      omega
    · rw [if_neg hlo, if_neg hlo, if_neg (by omega)]

/-- The solid wipe row loop preserves the buffer length. -/
theorem wipeRowsSolid_length (w cols : Nat) (wf : WipeFrom) (fromf : List Nat)
    (to_px : Nat) (hcols : cols ≤ w) (r : Nat) :
    ∀ dst : List Nat, r * w ≤ dst.length → r * w ≤ fromf.length →
      (wipeRowsSolid w cols wf fromf to_px r dst).length = dst.length := by
  induction r with
  | zero => intro dst _ _; rfl
  | succ r ih =>
      intro dst hd hf
      have hstep : (r + 1) * w = r * w + w := by ring
      rw [hstep] at hd hf
      have hih := ih dst (by omega) (by omega)
      simp only [wipeRowsSolid]
      cases wf with
      | left =>
          rw [wipeRowLeftSolid_length hcols (by rw [hih]; omega) (by omega)]
          exact hih
      | right =>
          rw [wipeRowRightSolid_length hcols (by rw [hih]; omega) (by omega)]
          exact hih

/-- The solid wipe row loop: lookup characterization. -/
theorem wipeRowsSolid_getElem? (w cols : Nat) (wf : WipeFrom)
    (fromf : List Nat) (to_px : Nat) (hw : 0 < w) (hcols : cols ≤ w)
    (r : Nat) :
    ∀ dst : List Nat, r * w ≤ dst.length → r * w ≤ fromf.length →
      ∀ i : Nat,
      (wipeRowsSolid w cols wf fromf to_px r dst)[i]? =
        if i < r * w then
          match wf with
          | .left => if i % w < cols then some to_px else fromf[i]?
          | .right => if i % w < w - cols then fromf[i]? else some to_px
        else dst[i]? := by
  induction r with
  | zero =>
      intro dst _ _ i
      simp [wipeRowsSolid]
  | succ r ih =>
      intro dst hd hf i
      have hstep : (r + 1) * w = r * w + w := by ring
      rw [hstep] at hd hf
      have hihlen := wipeRowsSolid_length w cols wf fromf to_px hcols r dst
        (by omega) (by omega)
      have hih := ih dst (by omega) (by omega) i
      have hmod : ∀ x, x < w → (r * w + x) % w = x := by
        intro x hx
        rw [show r * w + x = w * r + x by ring, Nat.mul_add_mod]
        exact Nat.mod_eq_of_lt hx
      simp only [wipeRowsSolid]
      rw [hstep]
      cases wf with
      | left =>
          rw [wipeRowLeftSolid_getElem? hcols (by rw [hihlen]; omega)
            (by omega) i]
          by_cases hlo : i < r * w
          · rw [if_neg (by omega), if_neg (by omega), hih, if_pos hlo,
              if_pos (show i < r * w + w by omega)]
          · by_cases hc1 : i < r * w + cols
            · rw [if_pos ⟨show r * w ≤ i by omega, hc1⟩,
                if_pos (show i < r * w + w by omega)]
              have hx := hmod (i - r * w) (by omega)
              rw [show r * w + (i - r * w) = i by omega] at hx
              rw [if_pos (show i % w < cols by omega)]
            · by_cases hc2 : i < r * w + w
              · rw [if_neg (show ¬(r * w ≤ i ∧ i < r * w + cols) by omega),
                  if_pos ⟨show r * w ≤ i by omega, hc2⟩,
                  if_pos (show i < r * w + w by omega)]
                have hx := hmod (i - r * w) (by omega)
                rw [show r * w + (i - r * w) = i by omega] at hx
                rw [if_neg (show ¬(i % w < cols) by omega)]
              · rw [if_neg (show ¬(r * w ≤ i ∧ i < r * w + cols) by omega),
                  if_neg (show ¬(r * w ≤ i ∧ i < r * w + w) by omega), hih,
                  if_neg (show ¬(i < r * w) by omega),
                  if_neg (show ¬(i < r * w + w) by omega)]
      | right =>
          rw [wipeRowRightSolid_getElem? hcols (by rw [hihlen]; omega)
            (by omega) i]
          by_cases hlo : i < r * w
          · rw [if_neg (by omega), if_neg (by omega), hih, if_pos hlo,
              if_pos (show i < r * w + w by omega)]
          · by_cases hc1 : i < r * w + (w - cols)
            · rw [if_pos ⟨show r * w ≤ i by omega, hc1⟩,
                if_pos (show i < r * w + w by omega)]
              have hx := hmod (i - r * w) (by omega)
              rw [show r * w + (i - r * w) = i by omega] at hx
              rw [if_pos (show i % w < w - cols by omega)]
            · by_cases hc2 : i < r * w + w
              · rw [if_neg (show ¬(r * w ≤ i ∧ i < r * w + (w - cols)) by omega),
                  if_pos ⟨show r * w ≤ i by omega, hc2⟩,
                  if_pos (show i < r * w + w by omega)]
                have hx := hmod (i - r * w) (by omega)
                rw [show r * w + (i - r * w) = i by omega] at hx
                rw [if_neg (show ¬(i % w < w - cols) by omega)]
              · rw [if_neg (show ¬(r * w ≤ i ∧ i < r * w + (w - cols)) by omega),
                  if_neg (show ¬(r * w ≤ i ∧ i < r * w + w) by omega), hih,
                  if_neg (show ¬(i < r * w) by omega),
                  if_neg (show ¬(i < r * w + w) by omega)]

/-- C7: for full-size equal-length frames and tt strictly between 0 and 256,
both directional wipe kernels write every row as a hard to/from split at
cols = (w*tt)/256 columns: for Left the first cols pixels of each row come
from the to operand (the to frame, or the solid target pixel) and the rest
from the from frame; for Right the trailing cols pixels come from the to
operand and the leading w - cols from the from frame. -/
theorem C7_wipe_split (w h tt to_px : Nat) (dst fromf tof : List Nat)
    (wf : WipeFrom) (hw : 0 < w) (hh : 0 < h) (hd : dst.length = w * h)
    (hf : fromf.length = w * h) (htl : tof.length = w * h) (h0 : 0 < tt)
    (h1 : tt < 256) (y x : Nat) (hy : y < h) (hx : x < w) :
    ((paint_wipe_frame_to_frame_dir w h dst fromf tof tt wf).getD (y * w + x) 0
      = match wf with
        | .left =>
            if x < w * tt / 256 then tof.getD (y * w + x) 0
            else fromf.getD (y * w + x) 0
        | .right =>
            if x < w - w * tt / 256 then fromf.getD (y * w + x) 0
            else tof.getD (y * w + x) 0)
    ∧ ((paint_wipe_frame_to_solid_fast w h dst fromf to_px tt wf).getD
        (y * w + x) 0
      = match wf with
        | .left =>
            if x < w * tt / 256 then to_px else fromf.getD (y * w + x) 0
        | .right =>
            if x < w - w * tt / 256 then fromf.getD (y * w + x) 0
            else to_px) := by
  have hcolslt : w * tt / 256 < w := by
    apply Nat.div_lt_of_lt_mul
    rw [Nat.mul_comm 256 w]
    exact (Nat.mul_lt_mul_left hw).mpr h1
  have hwle : w ≤ w * h := Nat.le_mul_of_pos_right w hh
  have hrecover : w * h / w = h := Nat.mul_div_cancel_left h hw
  have hi : y * w + x < h * w := by
    have hyw : (y + 1) * w ≤ h * w := Nat.mul_le_mul_right w (by omega)
    have hyw2 : (y + 1) * w = y * w + w := by ring
    omega
  have himod : (y * w + x) % w = x := by
    rw [show y * w + x = w * y + x by ring, Nat.mul_add_mod]
    exact Nat.mod_eq_of_lt hx
  have hwh : w * h = h * w := Nat.mul_comm w h
  have hdir : paint_wipe_frame_to_frame_dir w h dst fromf tof tt wf
      = wipeRows w (w * tt / 256) wf fromf tof h dst := by
    simp only [paint_wipe_frame_to_frame_dir]
    rw [if_neg (show ¬(w = 0 ∨ h = 0) by omega), hd, hf, htl,
      show min tt 256 = tt by omega,
      show min (w * tt / 256) w = w * tt / 256 by omega,
      show min (w * h) (min (w * h) (min (w * h) (w * h))) = w * h by omega,
      if_neg (show ¬(w * h < w) by omega), hrecover]
  have hsolid : paint_wipe_frame_to_solid_fast w h dst fromf to_px tt wf
      = wipeRowsSolid w (w * tt / 256) wf fromf to_px h dst := by
    simp only [paint_wipe_frame_to_solid_fast]
    rw [if_neg (show ¬(w = 0 ∨ h = 0) by omega), hd, hf,
      show min (w * h) (min (w * h) (w * h)) = w * h by omega,
      if_neg (show ¬(w * h < w) by omega), if_neg (show ¬(256 ≤ tt) by omega),
      if_neg (show ¬(tt = 0) by omega),
      show min tt 256 = tt by omega,
      show min (tt * w / 256) w = w * tt / 256 by
        rw [Nat.mul_comm tt w]; omega,
      hrecover]
  constructor
  · rw [hdir, List.getD_eq_getElem?_getD,
      wipeRows_getElem? w (w * tt / 256) wf fromf tof hw (by omega) h dst
        (by omega) (by omega) (by omega) (y * w + x),
      if_pos (by omega : y * w + x < h * w), himod]
    cases wf with
    | left =>
        by_cases hxc : x < w * tt / 256
        · simp only [if_pos hxc, List.getD_eq_getElem?_getD]
        · simp only [if_neg hxc, List.getD_eq_getElem?_getD]
    | right =>
        by_cases hxc : x < w - w * tt / 256
        · simp only [if_pos hxc, List.getD_eq_getElem?_getD]
        · simp only [if_neg hxc, List.getD_eq_getElem?_getD]
  · rw [hsolid, List.getD_eq_getElem?_getD,
      wipeRowsSolid_getElem? w (w * tt / 256) wf fromf to_px hw (by omega) h
        dst (by omega) (by omega) (y * w + x),
      if_pos (by omega : y * w + x < h * w), himod]
    cases wf with
    | left =>
        by_cases hxc : x < w * tt / 256
        · simp only [if_pos hxc, Option.getD_some]
        · simp only [if_neg hxc, List.getD_eq_getElem?_getD]
    | right =>
        by_cases hxc : x < w - w * tt / 256
        · simp only [if_pos hxc, List.getD_eq_getElem?_getD]
        · simp only [if_neg hxc, Option.getD_some]

/-- C7 witness: both kernels on a 4 by 1 surface at tt = 128 (cols = 2),
Left direction, checked at column 1 (to side) via the theorem. -/
theorem C7_wipe_split_witness :
    (paint_wipe_frame_to_frame_dir 4 1 [9, 9, 9, 9] [1, 2, 3, 4]
      [11, 12, 13, 14] 128 WipeFrom.left).getD 1 0
      = ([11, 12, 13, 14] : List Nat).getD 1 0 := by
  have h := (C7_wipe_split 4 1 128 7 [9, 9, 9, 9] [1, 2, 3, 4]
    [11, 12, 13, 14] WipeFrom.left (by decide) (by decide) (by decide)
    (by decide) (by decide) (by decide) (by decide) 0 1 (by decide)
    (by decide)).1
  rw [show (0 * 4 + 1 : Nat) = 1 by decide] at h
  rw [h]
  decide

/-! ### Cache lemmas for C3 and C9 -/

/-- Enough fuel makes the prune loop reach the cap. -/
theorem pruneLoop_length_le (fuel : Nat) :
    ∀ (es : List CacheEntry) (fs : List (FrameKey × List Nat)),
      es.length ≤ MAX_CACHED_IMAGES + fuel →
      (pruneLoop fuel es fs).1.length ≤ MAX_CACHED_IMAGES := by
  induction fuel with
  | zero =>
      intro es fs h
      simpa [pruneLoop] using h
  | succ fuel ih =>
      intro es fs h
      simp only [pruneLoop]
      by_cases hle : es.length ≤ MAX_CACHED_IMAGES
      · rw [if_pos hle]
        exact hle
      · rw [if_neg hle]
        have hne : es ≠ [] := by
          intro hnil
          rw [hnil] at hle
          exact hle (by simp [MAX_CACHED_IMAGES])
        obtain ⟨old, hold⟩ : ∃ o, es.getLast? = some o := by
          cases hx : es.getLast? with
          | none => exact absurd (List.getLast?_eq_none_iff.mp hx) hne
          | some o => exact ⟨o, rfl⟩
        rw [hold]
        apply ih
        have := List.length_dropLast es
        omega

/-- Prune is the identity at or below the cap. -/
theorem pruneLoop_id (fuel : Nat) (es : List CacheEntry)
    (fs : List (FrameKey × List Nat)) (h : es.length ≤ MAX_CACHED_IMAGES) :
    pruneLoop fuel es fs = (es, fs) := by
  cases fuel with
  | zero => rfl
  | succ fuel => simp [pruneLoop, h]

/-- One eviction step: with six entries the prune loop drops exactly the
tail entry and removes its frames. -/
theorem pruneLoop_six (fuel : Nat) (es : List CacheEntry)
    (fs : List (FrameKey × List Nat)) (old : CacheEntry)
    (hlen : es.length = MAX_CACHED_IMAGES + 1)
    (hlast : es.getLast? = some old) :
    pruneLoop (fuel + 1) es fs
      = (es.dropLast, fs.filter (fun p => p.1.1 ≠ old.id)) := by
  simp only [pruneLoop]
  rw [if_neg (by omega), hlast]
  apply pruneLoop_id
  have := List.length_dropLast es
  omega

/-- extractFirst misses iff no element satisfies the test. -/
theorem extractFirst_eq_none (p : CacheEntry → Bool) :
    ∀ es : List CacheEntry, (∀ e ∈ es, ¬p e) → extractFirst p es = none := by
  intro es
  induction es with
  | nil => intro _; rfl
  | cons e rest ih =>
      intro h
      simp only [extractFirst]
      rw [if_neg (by simpa using h e (by simp))]
      rw [ih (fun x hx => h x (by simp [hx]))]

/-- extractFirst agrees with find? and returns the remainder list. -/
theorem extractFirst_of_find? (p : CacheEntry → Bool) :
    ∀ es : List CacheEntry, ∀ e : CacheEntry, es.find? p = some e →
      ∃ rest, extractFirst p es = some (e, rest) ∧
        rest.length + 1 = es.length ∧ ∀ x ∈ rest, x ∈ es := by
  intro es
  induction es with
  | nil => intro e h; simp [List.find?] at h
  | cons a rest ih =>
      intro e h
      by_cases hp : p a
      · rw [List.find?_cons_of_pos _ hp] at h
        cases h
        refine ⟨rest, ?_, by simp, fun x hx => by simp [hx]⟩
        simp only [extractFirst]
        rw [if_pos hp]
      · rw [List.find?_cons_of_neg _ hp] at h
        obtain ⟨r2, hr2, hlen, hmem⟩ := ih e h
        refine ⟨a :: r2, ?_, by simp [← hlen], ?_⟩
        · simp only [extractFirst]
          rw [if_neg hp, hr2]
        · intro x hx
          rcases List.mem_cons.mp hx with hxa | hxr
          · simp [hxa]
          · simp [hmem x hxr]

/-- With enough fuel, the prune loop keeps exactly the first
MAX_CACHED_IMAGES entries. -/
theorem pruneLoop_take (fuel : Nat) :
    ∀ (es : List CacheEntry) (fs : List (FrameKey × List Nat)),
      es.length ≤ MAX_CACHED_IMAGES + fuel →
      (pruneLoop fuel es fs).1
        = es.take (min MAX_CACHED_IMAGES es.length) := by
  induction fuel with
  | zero =>
      intro es fs h
      simp only [pruneLoop]
      rw [min_eq_right (by omega), List.take_of_length_le (le_refl _)]
  | succ fuel ih =>
      intro es fs h
      simp only [pruneLoop]
      by_cases hle : es.length ≤ MAX_CACHED_IMAGES
      · rw [if_pos hle, min_eq_right hle, List.take_of_length_le (le_refl _)]
      · rw [if_neg hle]
        have hne : es ≠ [] := by
          intro hnil
          rw [hnil] at hle
          exact hle (by simp [MAX_CACHED_IMAGES])
        obtain ⟨old, hold⟩ : ∃ o, es.getLast? = some o := by
          cases hx : es.getLast? with
          | none => exact absurd (List.getLast?_eq_none_iff.mp hx) hne
          | some o => exact ⟨o, rfl⟩
        rw [hold, ih es.dropLast _ (by
          have := List.length_dropLast es
          omega)]
        have hlen : es.dropLast.length = es.length - 1 :=
          List.length_dropLast es
        rw [hlen, List.dropLast_eq_take, List.take_take]
        have h5 : MAX_CACHED_IMAGES = 5 := rfl
        have hminmin : min (min MAX_CACHED_IMAGES (es.length - 1))
            (es.length - 1) = min MAX_CACHED_IMAGES es.length := by
          omega
        rw [hminmin]

/-- A cache-miss record inserts the new entry at the head, prunes to the
cap, and returns the fresh id. -/
theorem record_miss_entries (st : CacheState) (key : ImageKey)
    (newId now : Nat) (hmiss : ∀ e ∈ st.entries, e.key ≠ key) :
    (record_cached_image st key newId now).1.entries
        = (CacheEntry.mk newId key now :: st.entries).take
            (min MAX_CACHED_IMAGES (st.entries.length + 1))
      ∧ (record_cached_image st key newId now).1.frames
          = (pruneLoop (st.entries.length + 1)
              (CacheEntry.mk newId key now :: st.entries) st.frames).2
      ∧ (record_cached_image st key newId now).1.last_match = st.last_match
      ∧ (record_cached_image st key newId now).2 = newId := by
  have hext : extractFirst (fun e => e.key = key) st.entries = none :=
    extractFirst_eq_none _ _ (by
      intro e he
      simp only [decide_eq_true_eq]
      exact hmiss e he)
  unfold record_cached_image
  rw [hext]
  refine ⟨?_, ?_, ?_, ?_⟩
  · show (pruneLoop (CacheEntry.mk newId key now :: st.entries).length
        (CacheEntry.mk newId key now :: st.entries) st.frames).1 = _
    rw [pruneLoop_take _ _ _ (by omega)]
    simp
  · show (pruneLoop (CacheEntry.mk newId key now :: st.entries).length
        (CacheEntry.mk newId key now :: st.entries) st.frames).2 = _
    simp
  · rfl
  · rfl

/-- A hit record: the matching entry moves to the head with a refreshed
timestamp, the remainder keeps its order, and the existing id is returned. -/
theorem record_hit (st : CacheState) (key : ImageKey) (newId now : Nat)
    (e : CacheEntry)
    (hfind : st.entries.find? (fun en => en.key = key) = some e)
    (hlen : st.entries.length ≤ MAX_CACHED_IMAGES) :
    (record_cached_image st key newId now).2 = e.id ∧
      ∃ rest, (record_cached_image st key newId now).1.entries
          = { e with created_secs := now } :: rest
        ∧ rest.length + 1 = st.entries.length ∧ ∀ x ∈ rest, x ∈ st.entries := by
  obtain ⟨rest, hext, hrl, hmem⟩ :=
    extractFirst_of_find? (fun en => en.key = key) st.entries e hfind
  unfold record_cached_image
  rw [hext]
  refine ⟨rfl, rest, ?_, hrl, hmem⟩
  show (pruneLoop ({ e with created_secs := now } :: rest).length
      ({ e with created_secs := now } :: rest) st.frames).1 = _
  rw [pruneLoop_id _ _ _ (by simp; omega)]

/-- Loading right after storing the same frame key returns the stored
frame. -/
theorem load_frame_store_self (st : CacheState) (id si w h : Nat)
    (f : List Nat) (hlen : f.length = w * h) :
    load_frame (store_frame st id si w h f) id si w h = some f := by
  simp [load_frame, store_frame, List.find?, hlen]

/-- Storing under a different frame key does not affect a load. -/
theorem load_frame_store_other (st : CacheState) (id si w h id2 si2 w2 h2 : Nat)
    (f : List Nat) (hne : ¬(id2 = id ∧ si2 = si ∧ w2 = w ∧ h2 = h)) :
    load_frame (store_frame st id2 si2 w2 h2 f) id si w h
      = load_frame st id si w h := by
  simp only [load_frame, store_frame]
  rw [List.find?_cons_of_neg]
  simp only [decide_eq_true_eq]
  intro hcontra
  apply hne
  have h1 : id2 = id ∧ si2 = si ∧ w2 = w ∧ h2 = h := by
    have := Prod.mk.injEq (α := Nat) (β := Nat × Nat × Nat) id2 (si2, w2, h2)
        id (si, w, h)
    simp at hcontra
    exact ⟨hcontra.1, hcontra.2.1, hcontra.2.2.1, hcontra.2.2.2⟩
  exact h1

/-- Folded stores of other frame keys do not affect a load. -/
theorem load_frame_storeAll_other (id si w h : Nat) :
    ∀ (finals : List (Nat × Nat × Nat × List Nat)) (st : CacheState),
      (∀ x ∈ finals, ¬(x.1 = si ∧ x.2.1 = w ∧ x.2.2.1 = h)) →
      load_frame (finals.foldl (fun acc x =>
          store_frame acc id x.1 x.2.1 x.2.2.1 x.2.2.2) st) id si w h
        = load_frame st id si w h := by
  intro finals
  induction finals with
  | nil => intro st _; rfl
  | cons y rest ih =>
      intro st hno
      rw [List.foldl_cons, ih _ (fun x hx => hno x (by simp [hx])),
        load_frame_store_other]
      intro ⟨_, hsi, hw, hh⟩
      exact hno y (by simp) ⟨hsi, hw, hh⟩

/-- After folding stores over a list of finalized frames with pairwise
distinct (surface, width, height) triples, loading any stored triple
returns its frame. -/
theorem load_frame_storeAll_found (id : Nat) :
    ∀ (finals : List (Nat × Nat × Nat × List Nat)) (st : CacheState)
      (si w h : Nat) (f : List Nat),
      (si, w, h, f) ∈ finals →
      finals.Pairwise (fun a b =>
        ¬(a.1 = b.1 ∧ a.2.1 = b.2.1 ∧ a.2.2.1 = b.2.2.1)) →
      f.length = w * h →
      load_frame (finals.foldl (fun acc x =>
          store_frame acc id x.1 x.2.1 x.2.2.1 x.2.2.2) st) id si w h
        = some f := by
  intro finals
  induction finals with
  | nil => intro st si w h f hmem; simp at hmem
  | cons y rest ih =>
      intro st si w h f hmem hpair hlen
      rw [List.foldl_cons]
      rcases List.mem_cons.mp hmem with hy | hr
      · subst hy
        rw [load_frame_storeAll_other _ _ _ _ rest _ (by
          intro x hx hcontra
          exact (List.pairwise_cons.mp hpair).1 x hx
            ⟨hcontra.1.symm, hcontra.2.1.symm, hcontra.2.2.symm⟩)]
        exact load_frame_store_self _ _ _ _ _ _ hlen
      · exact ih _ si w h f hr (List.pairwise_cons.mp hpair).2 hlen

/-- Folded stores leave the index and last_match untouched. -/
theorem storeAll_entries (id : Nat) :
    ∀ (finals : List (Nat × Nat × Nat × List Nat)) (st : CacheState),
      (finals.foldl (fun acc x =>
          store_frame acc id x.1 x.2.1 x.2.2.1 x.2.2.2) st).entries
        = st.entries
      ∧ (finals.foldl (fun acc x =>
          store_frame acc id x.1 x.2.1 x.2.2.1 x.2.2.2) st).last_match
        = st.last_match := by
  intro finals
  induction finals with
  | nil => intro st; exact ⟨rfl, rfl⟩
  | cons y rest ih =>
      intro st
      rw [List.foldl_cons]
      exact ih (store_frame st id y.1 y.2.1 y.2.2.1 y.2.2.2)

/-- The index cap (the .1 component of any record result) never exceeds
MAX_CACHED_IMAGES. -/
theorem record_length_le (st : CacheState) (key : ImageKey)
    (newId now : Nat) :
    (record_cached_image st key newId now).1.entries.length
      ≤ MAX_CACHED_IMAGES := by
  unfold record_cached_image
  cases hE : extractFirst (fun e => e.key = key) st.entries with
  | none =>
      exact pruneLoop_length_le _ _ _ (by omega)
  | some pr =>
      exact pruneLoop_length_le _ _ _ (by omega)

/-- Iterated distinct-key records from a small index grow it one entry at a
time up to the cap. -/
theorem recordAll_length :
    ∀ (items : List (ImageKey × Nat × Nat)) (st : CacheState),
      st.entries.length ≤ MAX_CACHED_IMAGES →
      (∀ e ∈ st.entries, e.key ∉ items.map (fun it => it.1)) →
      (items.map (fun it => it.1)).Nodup →
      (recordAll st items).entries.length
        = min MAX_CACHED_IMAGES (st.entries.length + items.length) := by
  intro items
  induction items with
  | nil =>
      intro st hle _ _
      simp [recordAll, min_eq_right hle]
  | cons item rest ih =>
      intro st hle hkeys hnodup
      have h5 : MAX_CACHED_IMAGES = 5 := rfl
      have hmiss : ∀ e ∈ st.entries, e.key ≠ item.1 := by
        intro e he hkey
        exact hkeys e he (by simp [hkey])
      have hrec := record_miss_entries st item.1 item.2.1 item.2.2 hmiss
      have hnodup2 : (item.1 :: rest.map (fun it => it.1)).Nodup := by
        simpa using hnodup
      have hst1len :
          (record_cached_image st item.1 item.2.1 item.2.2).1.entries.length
            = min MAX_CACHED_IMAGES (st.entries.length + 1) := by
        rw [hrec.1, List.length_take]
        simp only [List.length_cons]
        omega
      have hkeys1 : ∀ e ∈ (record_cached_image st item.1 item.2.1
          item.2.2).1.entries, e.key ∉ rest.map (fun it => it.1) := by
        intro e he hk
        have hmem : e ∈ CacheEntry.mk item.2.1 item.1 item.2.2 :: st.entries :=
          List.take_subset _ _ (hrec.1 ▸ he)
        rcases List.mem_cons.mp hmem with hnew | hold
        · rw [hnew] at hk
          exact (List.nodup_cons.mp hnodup2).1 hk
        · exact hkeys e hold (by simp [hk])
      have hle1 : (record_cached_image st item.1 item.2.1
          item.2.2).1.entries.length ≤ MAX_CACHED_IMAGES := by
        rw [hst1len]
        omega
      simp only [recordAll]
      rw [ih _ hle1 hkeys1 (List.nodup_cons.mp hnodup2).2, hst1len]
      simp only [List.length_cons]
      have h5b : MAX_CACHED_IMAGES = 5 := rfl
      omega

/-- A record into a full index evicts exactly the tail entry and removes
its frame files. -/
theorem record_evict (st : CacheState) (key : ImageKey) (newId now : Nat)
    (last : CacheEntry) (hfull : st.entries.length = MAX_CACHED_IMAGES)
    (hmiss : ∀ e ∈ st.entries, e.key ≠ key)
    (hlast : st.entries.getLast? = some last) :
    (record_cached_image st key newId now).1.entries
        = (CacheEntry.mk newId key now :: st.entries).dropLast
      ∧ (record_cached_image st key newId now).1.frames
        = st.frames.filter (fun p => p.1.1 ≠ last.id) := by
  have h5 : MAX_CACHED_IMAGES = 5 := rfl
  have hrec := record_miss_entries st key newId now hmiss
  have hlast2 : (CacheEntry.mk newId key now :: st.entries).getLast?
      = some last := by
    cases hes : st.entries with
    | nil => rw [hes] at hfull; simp [h5] at hfull
    | cons b l =>
        rw [List.getLast?_cons_cons]
        rw [hes] at hlast
        exact hlast
  constructor
  · rw [hrec.1, hfull, List.dropLast_eq_take]
    simp only [List.length_cons, hfull]
    rw [show min MAX_CACHED_IMAGES (MAX_CACHED_IMAGES + 1)
        = MAX_CACHED_IMAGES + 1 - 1 by omega]
  · rw [hrec.2.1, hfull,
      show MAX_CACHED_IMAGES + 1 = MAX_CACHED_IMAGES + 1 - 1 + 1 by omega,
      pruneLoop_six _ _ _ last (by simp [hfull]) hlast2]

/-! ### C9: MRU cache cap, eviction and refresh -/

/-- C9: after any record the index holds at most 5 entries; a record into a
full index with a fresh key evicts exactly the least-recent (tail) entry
and removes its frames directory; after N distinct-key records from the
empty cache the index holds exactly min 5 N entries; re-recording an
existing key moves its entry to the head (timestamp refreshed) and returns
its existing id. -/
theorem C9_cache_mru (st : CacheState) (key : ImageKey) (newId now : Nat)
    (last e : CacheEntry) (items : List (ImageKey × Nat × Nat)) :
    ((record_cached_image st key newId now).1.entries.length
        ≤ MAX_CACHED_IMAGES)
    ∧ (st.entries.length = MAX_CACHED_IMAGES →
        (∀ e2 ∈ st.entries, e2.key ≠ key) →
        st.entries.getLast? = some last →
        (record_cached_image st key newId now).1.entries
            = (CacheEntry.mk newId key now :: st.entries).dropLast
          ∧ (record_cached_image st key newId now).1.frames
            = st.frames.filter (fun p => p.1.1 ≠ last.id))
    ∧ ((items.map (fun it => it.1)).Nodup →
        (recordAll emptyCache items).entries.length
          = min MAX_CACHED_IMAGES items.length)
    ∧ (st.entries.find? (fun en => en.key = key) = some e →
        st.entries.length ≤ MAX_CACHED_IMAGES →
        (record_cached_image st key newId now).2 = e.id
          ∧ (record_cached_image st key newId now).1.entries.head?
            = some { e with created_secs := now }) := by
  refine ⟨record_length_le st key newId now, ?_, ?_, ?_⟩
  · intro hfull hmiss hlast
    exact record_evict st key newId now last hfull hmiss hlast
  · intro hnodup
    have h := recordAll_length items emptyCache (by simp [emptyCache])
      (by simp [emptyCache]) hnodup
    simpa [emptyCache] using h
  · intro hfind hlen
    obtain ⟨hid, rest, hentries, _, _⟩ := record_hit st key newId now e hfind hlen
    exact ⟨hid, by rw [hentries]; rfl⟩

/-- C9 witness: two distinct-key records from the empty cache yield exactly
two entries, via the third conjunct of the theorem. -/
theorem C9_cache_mru_witness :
    (recordAll emptyCache [(testKey, 1, 1), (testKey2, 2, 2)]).entries.length
      = min MAX_CACHED_IMAGES 2 :=
  (C9_cache_mru emptyCache testKey 1 1 ⟨0, testKey, 0⟩ ⟨0, testKey, 0⟩
    [(testKey, 1, 1), (testKey2, 2, 2)]).2.2.1 (by decide)

/-! ### C3: miss-path record and store, then find and load -/

/-- C3: on a cache miss, the engine records a new id for the spec's
ImageKey (inserted at the head of the MRU index) and stores each finalized
per-surface frame under that id; a subsequent find for an equal key
returns that id, and loading any stored (surface, width, height) triple
returns the stored frame. -/
theorem C3_record_and_store (st : CacheState) (key : ImageKey)
    (newId now : Nat) (finals : List (Nat × Nat × Nat × List Nat))
    (si w h : Nat) (f : List Nat)
    (hmiss : ∀ e ∈ st.entries, e.key ≠ key)
    (hmem : (si, w, h, f) ∈ finals)
    (hpair : finals.Pairwise (fun a b =>
      ¬(a.1 = b.1 ∧ a.2.1 = b.2.1 ∧ a.2.2.1 = b.2.2.1)))
    (hflen : f.length = w * h) :
    (record_and_store_frames st key newId now finals).2 = newId
    ∧ (record_and_store_frames st key newId now finals).1.entries.head?
        = some (CacheEntry.mk newId key now)
    ∧ (find_cached_entry_id
        (record_and_store_frames st key newId now finals).1 key).2
        = some newId
    ∧ load_frame (record_and_store_frames st key newId now finals).1
        newId si w h = some f := by
  have h5 : MAX_CACHED_IMAGES = 5 := rfl
  have hrec := record_miss_entries st key newId now hmiss
  simp only [record_and_store_frames]
  rw [hrec.2.2.2]
  have hentries :=
    (storeAll_entries newId finals (record_cached_image st key newId now).1).1
  have hmin : min MAX_CACHED_IMAGES (st.entries.length + 1)
      = min (MAX_CACHED_IMAGES - 1) st.entries.length + 1 := by
    omega
  have hhead : (record_cached_image st key newId now).1.entries.head?
      = some (CacheEntry.mk newId key now) := by
    rw [hrec.1, hmin, List.take_succ_cons]
    rfl
  refine ⟨rfl, ?_, ?_, ?_⟩
  · rw [hentries]
    exact hhead
  · simp only [find_cached_entry_id]
    obtain ⟨tl, htl⟩ : ∃ tl,
        (record_cached_image st key newId now).1.entries
          = CacheEntry.mk newId key now :: tl := by
      rw [hrec.1, hmin, List.take_succ_cons]
      exact ⟨_, rfl⟩
    rw [hentries, htl, List.find?_cons_of_pos _ (by simp)]
  · exact load_frame_storeAll_found newId finals _ si w h f hmem hpair hflen

/-- C3 witness: a concrete miss record with one stored 1 by 1 frame, checked
through the theorem. -/
theorem C3_record_and_store_witness :
    (record_and_store_frames emptyCache testKey 42 7 [(0, 1, 1, [5])]).2 = 42
    ∧ load_frame
        (record_and_store_frames emptyCache testKey 42 7 [(0, 1, 1, [5])]).1
        42 0 1 1 = some [5] :=
  ⟨(C3_record_and_store emptyCache testKey 42 7 [(0, 1, 1, [5])] 0 1 1 [5]
      (by simp [emptyCache]) (by simp) (by simp) (by decide)).1,
   (C3_record_and_store emptyCache testKey 42 7 [(0, 1, 1, [5])] 0 1 1 [5]
      (by simp [emptyCache]) (by simp) (by simp) (by decide)).2.2.2⟩

/-! ### C2: the buffer wait never surfaces a stuck compositor as an error -/

/-- Every run of the wait loop with an IO-error-free environment returns Ok,
and the returned surface is either ready or has its pacing state cleared. -/
theorem waitLoopAux_ok (env : Nat → WaitEnv)
    (hio : ∀ k, (env k).ioErr = false) :
    ∀ (fuel : Nat) (s : SurfaceState) (elapsed k : Nat),
      ∃ s1 k1, waitLoopAux env fuel s elapsed k = .ok (s1, k1)
        ∧ (waitReady s1 = true
           ∨ (s1.frame_pending = false ∧ s1.frame_cb = false
              ∧ s1.frame_callback_ok = false)) := by
  intro fuel
  induction fuel with
  | zero =>
      intro s elapsed k
      exact ⟨hardBail s, k, rfl, Or.inr ⟨rfl, rfl, rfl⟩⟩
  | succ fuel ih =>
      intro s elapsed k
      simp only [waitLoopAux]
      by_cases h1 : HARD_BAIL_AFTER ≤ elapsed
      · rw [if_pos h1]
        exact ⟨hardBail s, k, rfl, Or.inr ⟨rfl, rfl, rfl⟩⟩
      · rw [if_neg h1]
        split
        · split
          · next h2 => exact ⟨_, k, rfl, Or.inl h2⟩
          · next h2 =>
              have h3 : ¬((env k).ioErr = true) := by
                rw [hio k]
                simp
              rw [if_neg h3]
              exact ih _ _ _
        · split
          · next h2 => exact ⟨_, k, rfl, Or.inl h2⟩
          · next h2 =>
              have h3 : ¬((env k).ioErr = true) := by
                rw [hio k]
                simp
              rw [if_neg h3]
              exact ih _ _ _

/-- C2: with any environment that raises no IO errors, the buffer wait
always returns Ok for every surface state (never an error caused by a busy
buffer or a pending frame callback), the returned state is either ready or
has pacing fully cleared, and once elapsed time reaches the 1500 ms
hard-bail deadline the loop immediately clears frame_pending, frame_cb and
frame_callback_ok and returns Ok. -/
theorem C2_wait_never_stuck (env : Nat → WaitEnv) (s0 : SurfaceState)
    (k0 : Nat) (hio : ∀ k, (env k).ioErr = false) :
    (∃ s1 k1, wait_for_free_buffer_idx s0 env k0 = .ok (s1, k1)
      ∧ (waitReady s1 = true
         ∨ (s1.frame_pending = false ∧ s1.frame_cb = false
            ∧ s1.frame_callback_ok = false)))
    ∧ ∀ (fuel : Nat) (s : SurfaceState) (elapsed k : Nat),
        HARD_BAIL_AFTER ≤ elapsed →
        waitLoopAux env (fuel + 1) s elapsed k = .ok (hardBail s, k) := by
  constructor
  · exact waitLoopAux_ok env hio (HARD_BAIL_AFTER + 1) s0 0 k0
  · intro fuel s elapsed k h
    simp only [waitLoopAux]
    rw [if_pos h]

/-- C2 witness: the theorem applied to a compositor that never releases
buffers nor delivers frame-done, starting from a surface with both slots
busy and a pending callback. -/
theorem C2_wait_never_stuck_witness :
    ∃ s1 k1, wait_for_free_buffer_idx stuckSurface quietEnv 0 = .ok (s1, k1) := by
  obtain ⟨s1, k1, heq, _⟩ :=
    (C2_wait_never_stuck quietEnv stuckSurface 0 (fun _ => rfl)).1
  exact ⟨s1, k1, heq⟩

/-! ### Engine-state invariance lemmas for C1, C5, C6 -/

/-- Indexing after set at the written index. -/
theorem getS_set_self (l : List SurfaceState) (i : Nat) (v : SurfaceState)
    (h : i < l.length) : getS (l.set i v) i = v := by
  simp [getS, List.getD_eq_getElem?_getD, List.getElem?_set_self h]

/-- Indexing after set at another index. -/
theorem getS_set_ne (l : List SurfaceState) (i j : Nat) (v : SurfaceState)
    (h : j ≠ i) : getS (l.set i v) j = getS l j := by
  simp [getS, List.getD_eq_getElem?_getD,
    List.getElem?_set_ne (show i ≠ j from fun he => h he.symm)]

/-- A usable surface index is in range (the out-of-range default row is not
alive). -/
theorem usable_lt (l : List SurfaceState) (i : Nat)
    (h : surface_usable (getS l i) = true) : i < l.length := by
  by_contra hge
  have hd : getS l i = defaultSurface := by
    simp only [getS, List.getD_eq_getElem?_getD]
    rw [List.getElem?_eq_none (by omega)]
    rfl
  rw [hd] at h
  simp [surface_usable, defaultSurface] at h

/-- Event application inside the wait loop does not touch the core
fields. -/
theorem coreOf_applyEnvStep (ev : WaitEnv) (s : SurfaceState) :
    coreOf (applyEnvStep ev s) = coreOf s := by
  simp only [applyEnvStep]
  repeat' split
  all_goals rfl

/-- The 200 ms pacing disable does not touch the core fields. -/
theorem coreOf_disableStale (elapsed : Nat) (s : SurfaceState) :
    coreOf (disableStale elapsed s) = coreOf s := by
  simp only [disableStale]
  split <;> rfl

/-- Committing does not touch the core fields. -/
theorem coreOf_commit (s : SurfaceState) :
    coreOf (commit_surface s) = coreOf s := by
  simp only [commit_surface]
  repeat' split
  all_goals rfl

/-- The wait loop only changes buffers and pacing, never the core fields. -/
theorem waitLoopAux_core (env : Nat → WaitEnv) :
    ∀ (fuel : Nat) (s : SurfaceState) (elapsed k : Nat)
      (s1 : SurfaceState) (k1 : Nat),
      waitLoopAux env fuel s elapsed k = .ok (s1, k1) → coreOf s1 = coreOf s := by
  intro fuel
  induction fuel with
  | zero =>
      intro s e k s1 k1 h
      simp only [waitLoopAux, Except.ok.injEq, Prod.mk.injEq] at h
      rw [← h.1]
      rfl
  | succ fuel ih =>
      intro s e k s1 k1 h
      simp only [waitLoopAux] at h
      by_cases h1 : HARD_BAIL_AFTER ≤ e
      · rw [if_pos h1] at h
        simp only [Except.ok.injEq, Prod.mk.injEq] at h
        rw [← h.1]
        rfl
      · rw [if_neg h1] at h
        revert h
        split
        · split
          · intro h
            simp only [Except.ok.injEq, Prod.mk.injEq] at h
            rw [← h.1]
            rfl
          · intro h
            split at h
            · exact absurd h (by simp)
            · have := ih _ _ _ _ _ h
              rw [this, coreOf_applyEnvStep, coreOf_disableStale]
              rfl
        · split
          · intro h
            simp only [Except.ok.injEq, Prod.mk.injEq] at h
            rw [← h.1]
          · intro h
            split at h
            · exact absurd h (by simp)
            · have := ih _ _ _ _ _ h
              rw [this, coreOf_applyEnvStep, coreOf_disableStale]

/-- Equal core fields give equal usability, output matching and geometry. -/
theorem coreOf_flags {s1 s2 : SurfaceState} (h : coreOf s1 = coreOf s2) :
    surface_usable s1 = surface_usable s2
    ∧ (∀ o, surface_matches_output s1 o = surface_matches_output s2 o)
    ∧ (∀ o, surface_matches_output_surface s1 o
        = surface_matches_output_surface s2 o)
    ∧ s1.width = s2.width ∧ s1.height = s2.height
    ∧ s1.last_frame = s2.last_frame ∧ s1.last_colour = s2.last_colour
    ∧ s1.has_image = s2.has_image := by
  simp only [coreOf, Prod.mk.injEq] at h
  obtain ⟨h1, h2, h3, h4, h5, _, _, h8, h9, h10⟩ := h
  refine ⟨?_, ?_, ?_, h3, h4, h10, h8, h9⟩
  · simp [surface_usable, h1, h2, h3, h4, h5]
  · intro o
    simp [surface_matches_output, h1]
  · intro o
    simp [surface_matches_output_surface, h1]

/-- One colour animation tick step keeps the table length and the core
fields of every surface. -/
theorem colourTickOne_core (kind : Transition) (wf : WipeFrom) (to_px : Nat)
    (output : Option String) (from_frames : List (Option (List Nat)))
    (envs : Nat → WaitEnv) (tt : Nat) (acc : List SurfaceState × Nat)
    (i : Nat) (acc2 : List SurfaceState × Nat)
    (h : colourTickOne kind wf to_px output from_frames envs tt acc i
      = .ok acc2) :
    acc2.1.length = acc.1.length
    ∧ ∀ j, coreOf (getS acc2.1 j) = coreOf (getS acc.1 j) := by
  unfold colourTickOne at h
  split at h
  · rw [ite_self] at h
    simp only [Except.ok.injEq] at h
    rw [← h]
    exact ⟨rfl, fun j => rfl⟩
  · simp only [] at h
    split at h
    · simp only [Except.ok.injEq] at h
      rw [← h]
      exact ⟨rfl, fun j => rfl⟩
    · next hsel =>
        rw [Decidable.not_not] at hsel
        have hlt : i < acc.1.length := usable_lt _ _ hsel.1
        cases hw : wait_for_free_buffer_idx (getS acc.1 i) envs acc.2 with
        | error e =>
            rw [hw] at h
            exact Except.noConfusion h
        | ok pr =>
            obtain ⟨s1, k1⟩ := pr
            rw [hw] at h
            have h2 := Except.ok.inj h
            have hcore1 : coreOf s1 = coreOf (getS acc.1 i) :=
              waitLoopAux_core envs _ _ _ _ _ _ hw
            rw [← h2]
            refine ⟨by simp, fun j => ?_⟩
            by_cases hj : j = i
            · subst hj
              rw [getS_set_self _ _ _ hlt, coreOf_commit]
              cases kind <;> simpa using hcore1
            · rw [getS_set_ne _ _ _ _ hj]

/-- One image animation tick step keeps the table length and the core
fields of every surface. -/
theorem imageTickOne_core (kind : Transition) (output : Option String)
    (from_frames to_frames : List (Option (List Nat))) (envs : Nat → WaitEnv)
    (tt : Nat) (acc : List SurfaceState × Nat) (i : Nat)
    (acc2 : List SurfaceState × Nat)
    (h : imageTickOne kind output from_frames to_frames envs tt acc i
      = .ok acc2) :
    acc2.1.length = acc.1.length
    ∧ ∀ j, coreOf (getS acc2.1 j) = coreOf (getS acc.1 j) := by
  unfold imageTickOne at h
  split at h
  · simp only [] at h
    split at h
    · simp only [Except.ok.injEq] at h
      rw [← h]
      exact ⟨rfl, fun j => rfl⟩
    · next hsel =>
        rw [Decidable.not_not] at hsel
        have hlt : i < acc.1.length := usable_lt _ _ hsel.1
        cases hw : wait_for_free_buffer_idx (getS acc.1 i) envs acc.2 with
        | error e =>
            rw [hw] at h
            exact Except.noConfusion h
        | ok pr =>
            obtain ⟨s1, k1⟩ := pr
            rw [hw] at h
            have h2 := Except.ok.inj h
            have hcore1 : coreOf s1 = coreOf (getS acc.1 i) :=
              waitLoopAux_core envs _ _ _ _ _ _ hw
            rw [← h2]
            refine ⟨by simp, fun j => ?_⟩
            by_cases hj : j = i
            · subst hj
              rw [getS_set_self _ _ _ hlt, coreOf_commit]
              cases kind <;> simpa using hcore1
            · rw [getS_set_ne _ _ _ _ hj]
  · rw [ite_self] at h
    simp only [Except.ok.injEq] at h
    rw [← h]
    exact ⟨rfl, fun j => rfl⟩

/-- foldSurf preserves length and core fields whenever its step does. -/
theorem foldSurf_core
    (f : List SurfaceState × Nat → Nat → Except Unit (List SurfaceState × Nat))
    (hf : ∀ acc i acc2, f acc i = .ok acc2 →
      acc2.1.length = acc.1.length
      ∧ ∀ j, coreOf (getS acc2.1 j) = coreOf (getS acc.1 j)) :
    ∀ (idxs : List Nat) (acc acc2 : List SurfaceState × Nat),
      foldSurf f idxs acc = .ok acc2 →
      acc2.1.length = acc.1.length
      ∧ ∀ j, coreOf (getS acc2.1 j) = coreOf (getS acc.1 j) := by
  intro idxs
  induction idxs with
  | nil =>
      intro acc acc2 h
      simp only [foldSurf, Except.ok.injEq] at h
      rw [← h]
      exact ⟨rfl, fun j => rfl⟩
  | cons i rest ih =>
      intro acc acc2 h
      simp only [foldSurf] at h
      cases hfi : f acc i with
      | error e =>
          rw [hfi] at h
          exact Except.noConfusion h
      | ok accM =>
          rw [hfi] at h
          obtain ⟨hl1, hc1⟩ := hf acc i accM hfi
          obtain ⟨hl2, hc2⟩ := ih accM acc2 h
          exact ⟨by omega, fun j => (hc2 j).trans (hc1 j)⟩

/-- The colour animation loop preserves length and core fields. -/
theorem colourAnimLoop_core (kind : Transition) (wf : WipeFrom) (to_px : Nat)
    (output : Option String) (from_frames : List (Option (List Nat)))
    (envs : Nat → WaitEnv) :
    ∀ (tts : List Nat) (acc acc2 : List SurfaceState × Nat),
      colourAnimLoop kind wf to_px output from_frames envs tts acc = .ok acc2 →
      acc2.1.length = acc.1.length
      ∧ ∀ j, coreOf (getS acc2.1 j) = coreOf (getS acc.1 j) := by
  intro tts
  induction tts with
  | nil =>
      intro acc acc2 h
      simp only [colourAnimLoop, Except.ok.injEq] at h
      rw [← h]
      exact ⟨rfl, fun j => rfl⟩
  | cons tt rest ih =>
      intro acc acc2 h
      simp only [colourAnimLoop] at h
      cases hfi : foldSurf
          (colourTickOne kind wf to_px output from_frames envs tt)
          (List.range acc.1.length) acc with
      | error e =>
          rw [hfi] at h
          exact Except.noConfusion h
      | ok accM =>
          rw [hfi] at h
          obtain ⟨hl1, hc1⟩ := foldSurf_core _
            (colourTickOne_core kind wf to_px output from_frames envs tt)
            _ _ _ hfi
          obtain ⟨hl2, hc2⟩ := ih accM acc2 h
          exact ⟨by omega, fun j => (hc2 j).trans (hc1 j)⟩

/-- The image animation loop preserves length and core fields. -/
theorem imageAnimLoop_core (kind : Transition) (output : Option String)
    (from_frames to_frames : List (Option (List Nat)))
    (envs : Nat → WaitEnv) :
    ∀ (tts : List Nat) (acc acc2 : List SurfaceState × Nat),
      imageAnimLoop kind output from_frames to_frames envs tts acc = .ok acc2 →
      acc2.1.length = acc.1.length
      ∧ ∀ j, coreOf (getS acc2.1 j) = coreOf (getS acc.1 j) := by
  intro tts
  induction tts with
  | nil =>
      intro acc acc2 h
      simp only [imageAnimLoop, Except.ok.injEq] at h
      rw [← h]
      exact ⟨rfl, fun j => rfl⟩
  | cons tt rest ih =>
      intro acc acc2 h
      simp only [imageAnimLoop] at h
      cases hfi : foldSurf
          (imageTickOne kind output from_frames to_frames envs tt)
          (List.range acc.1.length) acc with
      | error e =>
          rw [hfi] at h
          exact Except.noConfusion h
      | ok accM =>
          rw [hfi] at h
          obtain ⟨hl1, hc1⟩ := foldSurf_core _
            (imageTickOne_core kind output from_frames to_frames envs tt)
            _ _ _ hfi
          obtain ⟨hl2, hc2⟩ := ih accM acc2 h
          exact ⟨by omega, fun j => (hc2 j).trans (hc1 j)⟩

/-- Field content of surface_usable. -/
theorem usable_fields {s : SurfaceState} (h : surface_usable s = true) :
    s.alive = true ∧ s.configured = true ∧ 0 < s.width ∧ 0 < s.height := by
  simp only [surface_usable, Bool.and_eq_true, bne_iff_ne, ne_eq] at h
  exact ⟨h.1.1.1, h.1.1.2, Nat.pos_of_ne_zero h.1.2, Nat.pos_of_ne_zero h.2⟩

/-- A usable matching index makes the colour selection nonempty. -/
theorem selectedColour_ne_nil {ss : List SurfaceState} {output : Option String}
    {i : Nat} (hu : surface_usable (getS ss i) = true)
    (hm : surface_matches_output (getS ss i) output = true) :
    (selectedColour ss output).length ≠ 0 := by
  have hi : i < ss.length := usable_lt _ _ hu
  have hmem : i ∈ selectedColour ss output := by
    simp only [selectedColour, List.mem_filter, List.mem_range]
    exact ⟨hi, by simp [hu, hm]⟩
  intro hlen
  rw [List.eq_nil_of_length_eq_zero hlen] at hmem
  exact absurd hmem (List.not_mem_nil i)

/-- A surface whose name is not the wanted one fails the colour-path output
filter. -/
theorem not_matches_colour {s : SurfaceState} {want : String}
    (h : s.output_name ≠ some want) :
    surface_matches_output s (some want) = false := by
  unfold surface_matches_output
  cases hn : s.output_name with
  | none => rfl
  | some name =>
      rw [hn] at h
      show (name == want) = false
      rw [beq_eq_false_iff_ne]
      intro he
      exact h (by rw [he])

/-- A surface whose name is not the wanted one fails the image-path output
filter. -/
theorem not_matches_surface {s : SurfaceState} {want : String}
    (h : s.output_name ≠ some want) :
    surface_matches_output_surface s (some want) = false := by
  unfold surface_matches_output_surface
  show (s.output_name == some want) = false
  rw [beq_eq_false_iff_ne]
  exact h

/-- foldSurf over steps that all skip returns the accumulator unchanged. -/
theorem foldSurf_skip
    (f : List SurfaceState × Nat → Nat →
      Except Unit (List SurfaceState × Nat)) :
    ∀ (idxs : List Nat) (acc : List SurfaceState × Nat),
      (∀ i ∈ idxs, f acc i = .ok acc) → foldSurf f idxs acc = .ok acc := by
  intro idxs
  induction idxs with
  | nil => intro acc _; rfl
  | cons i rest ih =>
      intro acc h
      simp only [foldSurf]
      rw [h i (List.mem_cons_self i rest)]
      exact ih acc (fun j hj => h j (List.mem_cons_of_mem i hj))

/-- Characterization of a foldSurf pass whose step touches only its own
index: over Nodup indices, indices outside the list are untouched and each
listed index satisfies the step's input-output relation Q relative to the
initial table. -/
theorem foldSurf_char
    (f : List SurfaceState × Nat → Nat →
      Except Unit (List SurfaceState × Nat))
    (Q : Nat → SurfaceState → SurfaceState → Prop)
    (hf : ∀ acc i acc2, f acc i = .ok acc2 →
      acc2.1.length = acc.1.length
      ∧ (∀ j, j ≠ i → getS acc2.1 j = getS acc.1 j)
      ∧ Q i (getS acc.1 i) (getS acc2.1 i)) :
    ∀ (idxs : List Nat) (acc acc2 : List SurfaceState × Nat),
      idxs.Nodup → foldSurf f idxs acc = .ok acc2 →
      acc2.1.length = acc.1.length
      ∧ (∀ j, j ∉ idxs → getS acc2.1 j = getS acc.1 j)
      ∧ ∀ i ∈ idxs, Q i (getS acc.1 i) (getS acc2.1 i) := by
  intro idxs
  induction idxs with
  | nil =>
      intro acc acc2 _ h
      have h2 := Except.ok.inj h
      rw [← h2]
      exact ⟨rfl, fun j _ => rfl, fun i hi => absurd hi (List.not_mem_nil i)⟩
  | cons i rest ih =>
      intro acc acc2 hnd h
      simp only [foldSurf] at h
      cases hfi : f acc i with
      | error e => rw [hfi] at h; exact Except.noConfusion h
      | ok accM =>
          rw [hfi] at h
          obtain ⟨hlen1, hne1, hQ1⟩ := hf acc i accM hfi
          obtain ⟨hlen2, hne2, hQ2⟩ := ih accM acc2 hnd.of_cons h
          have hinotin : i ∉ rest := (List.nodup_cons.mp hnd).1
          refine ⟨hlen2.trans hlen1, ?_, ?_⟩
          · intro j hj
            have hji : j ≠ i := fun he => hj (he ▸ List.mem_cons_self i rest)
            have hjr : j ∉ rest := fun hm => hj (List.mem_cons_of_mem i hm)
            rw [hne2 j hjr, hne1 j hji]
          · intro j hj
            rcases List.mem_cons.mp hj with he | hm
            · subst he
              rw [hne2 j hinotin]
              exact hQ1
            · have hji : j ≠ i := fun he => hinotin (he ▸ hm)
              rw [← hne1 j hji]
              exact hQ2 j hm

/-- Characterization of one colour finalization step: the step touches only
index i, and on a selected usable surface it writes the exact solid target
frame into last_frame and updates last_colour and has_image. -/
theorem colourFinalizeOne_char (target : Rgb) (to_px : Nat)
    (output : Option String) (envs : Nat → WaitEnv)
    (acc : List SurfaceState × Nat) (i : Nat) (acc2 : List SurfaceState × Nat)
    (h : colourFinalizeOne target to_px output envs acc i = .ok acc2) :
    acc2.1.length = acc.1.length
    ∧ (∀ j, j ≠ i → getS acc2.1 j = getS acc.1 j)
    ∧ (surface_usable (getS acc.1 i) = true
        ∧ surface_matches_output (getS acc.1 i) output = true →
        (getS acc2.1 i).last_frame
          = some (List.replicate
              ((getS acc.1 i).width * (getS acc.1 i).height) to_px)
        ∧ (getS acc2.1 i).last_colour = target
        ∧ (getS acc2.1 i).has_image = false) := by
  unfold colourFinalizeOne at h
  simp only [] at h
  split at h
  · next hsel =>
      have h2 := Except.ok.inj h
      rw [← h2]
      exact ⟨rfl, fun j _ => rfl, fun hc => absurd hc hsel⟩
  · next hsel =>
      rw [Decidable.not_not] at hsel
      obtain ⟨hu, hm⟩ := hsel
      have hlt : i < acc.1.length := usable_lt _ _ hu
      obtain ⟨_, _, hwpos, hhpos⟩ := usable_fields hu
      cases hw : wait_for_free_buffer_idx (getS acc.1 i) envs acc.2 with
      | error e => rw [hw] at h; exact Except.noConfusion h
      | ok pr =>
          obtain ⟨s1, k1⟩ := pr
          rw [hw] at h
          simp only [bind, Except.bind] at h
          have hcore1 : coreOf s1 = coreOf (getS acc.1 i) :=
            waitLoopAux_core envs _ _ _ _ _ _ hw
          obtain ⟨_, _, _, hwidth, hheight, _, _, _⟩ := coreOf_flags hcore1
          rw [if_neg (show ¬(s1.width = 0 ∨ s1.height = 0) by omega)] at h
          have h2 := Except.ok.inj h
          rw [← h2]
          refine ⟨by simp, fun j hj => getS_set_ne _ _ _ _ hj, fun _ => ?_⟩
          rw [getS_set_self _ _ _ hlt]
          exact ⟨by rw [hwidth, hheight], rfl, rfl⟩

/-- Characterization of one image finalization step: the step touches only
index i, and on a selected surface with a target frame it writes exactly
that frame into last_frame and updates last_colour and has_image. -/
theorem imageFinalizeOne_char (bg : Rgb) (output : Option String)
    (to_frames : List (Option (List Nat))) (envs : Nat → WaitEnv)
    (acc : List SurfaceState × Nat) (i : Nat) (acc2 : List SurfaceState × Nat)
    (h : imageFinalizeOne bg output to_frames envs acc i = .ok acc2) :
    acc2.1.length = acc.1.length
    ∧ (∀ j, j ≠ i → getS acc2.1 j = getS acc.1 j)
    ∧ ∀ finalf, to_frames.getD i none = some finalf →
        surface_usable (getS acc.1 i) = true →
        surface_matches_output_surface (getS acc.1 i) output = true →
        (getS acc2.1 i).last_frame = some finalf
        ∧ (getS acc2.1 i).last_colour = bg
        ∧ (getS acc2.1 i).has_image = true := by
  unfold imageFinalizeOne at h
  split at h
  · next heq =>
      rw [ite_self] at h
      have h2 := Except.ok.inj h
      rw [← h2]
      refine ⟨rfl, fun j _ => rfl, fun finalf hf _ _ => ?_⟩
      rw [heq] at hf
      exact Option.noConfusion hf
  · next finalf heq =>
      simp only [] at h
      split at h
      · next hsel =>
          have h2 := Except.ok.inj h
          rw [← h2]
          refine ⟨rfl, fun j _ => rfl, fun finalf2 hf hu hm => ?_⟩
          exact absurd ⟨hu, hm⟩ hsel
      · next hsel =>
          rw [Decidable.not_not] at hsel
          have hlt : i < acc.1.length := usable_lt _ _ hsel.1
          cases hw : wait_for_free_buffer_idx (getS acc.1 i) envs acc.2 with
          | error e => rw [hw] at h; exact Except.noConfusion h
          | ok pr =>
              obtain ⟨s1, k1⟩ := pr
              rw [hw] at h
              have h2 := Except.ok.inj h
              rw [← h2]
              refine ⟨by simp, fun j hj => getS_set_ne _ _ _ _ hj,
                fun finalf2 hf _ _ => ?_⟩
              rw [heq] at hf
              have hf2 := Option.some.inj hf
              rw [getS_set_self _ _ _ hlt, ← hf2]
              exact ⟨rfl, rfl, rfl⟩

/-- The to-frames table of the fresh image render at a selected index. -/
theorem imageToFrames_getD (ss : List SurfaceState) (output : Option String)
    (render : Nat → Nat → List Nat) (i : Nat) (hi : i < ss.length) :
    (imageToFrames ss output render).getD i none
      = if imageSelected (getS ss i) output then
          some (render (getS ss i).width (getS ss i).height)
        else none := by
  simp only [imageToFrames, List.getD_eq_getElem?_getD, List.getElem?_map,
    List.getElem?_range hi, Option.map_some]
  rfl

/-- Inversion of one Except bind. -/
theorem except_bind_inv {α β : Type} {e : Except Unit α}
    {f : α → Except Unit β} {r : β}
    (h : (do let a ← e; f a) = .ok r) : ∃ a, e = .ok a ∧ f a = .ok r := by
  cases e with
  | error u => exact Except.noConfusion h
  | ok a => exact ⟨a, rfl, h⟩

/-- A usable surface matching the image-path output filter is selected by
the image paths. -/
theorem imageSelected_of_usable {s : SurfaceState} {output : Option String}
    (hu : surface_usable s = true)
    (hm : surface_matches_output_surface s output = true) :
    imageSelected s output = true := by
  obtain ⟨_, h2, h3, h4⟩ := usable_fields hu
  have h3' : s.width ≠ 0 := Nat.pos_iff_ne_zero.mp h3
  have h4' : s.height ≠ 0 := Nat.pos_iff_ne_zero.mp h4
  simp [imageSelected, h2, hm, h3', h4']

/-! ### C6: the size invariant and the configure handler -/

/-- C6 counterexample: a compositor Configure event carrying a 0 by 0 size
is accepted verbatim by the handler (wayland.rs lines 1065-1072 store the
event's width and height and set configured unconditionally), so the claimed
invariant configured implies positive size does not survive every engine
operation: after the event the surface is configured with width 0. -/
theorem C6_counterexample :
    (getS (on_layer_configure [testSurface] 0 0 0) 0).configured = true
    ∧ (getS (on_layer_configure [testSurface] 0 0 0) 0).width = 0
    ∧ ¬ size_invariant (getS (on_layer_configure [testSurface] 0 0 0) 0) := by
  refine ⟨rfl, rfl, fun hinv => ?_⟩
  have h := hinv rfl
  exact absurd h.1 (by decide)

/-- C6, amended: the configure handler preserves the size invariant whenever
the compositor-chosen size is positive; a zero-size configure does set
configured with zero width or height, but every paint consumer is guarded by
surface_usable, which itself forces configured and positive size. -/
theorem C6_amended (ss : List SurfaceState) (target w h j : Nat)
    (hw : 0 < w) (hh : 0 < h)
    (hinv : ∀ i, size_invariant (getS ss i)) :
    size_invariant (getS (on_layer_configure ss target w h) j)
    ∧ ∀ s : SurfaceState, surface_usable s = true →
        s.configured = true ∧ 0 < s.width ∧ 0 < s.height := by
  constructor
  · simp only [on_layer_configure]
    split
    · next hc =>
        by_cases hj : j = target
        · subst hj
          rw [getS_set_self _ _ _ hc.1]
          intro _
          exact ⟨hw, hh⟩
        · rw [getS_set_ne _ _ _ _ hj]
          exact hinv j
    · exact hinv j
  · intro s hu
    obtain ⟨_, h2, h3, h4⟩ := usable_fields hu
    exact ⟨h2, h3, h4⟩

/-- C6 witness: the amended preservation at a concrete positive configure of
the test surface table. -/
theorem C6_witness :
    size_invariant (getS (on_layer_configure [testSurface] 0 3 2) 0) := by
  have h := C6_amended [testSurface] 0 3 2 0 (by decide) (by decide) ?hinv
  · exact h.1
  case hinv =>
    intro i
    match i with
    | 0 => intro _; exact ⟨by decide, by decide⟩
    | n + 1 =>
        intro hc
        rw [show getS [testSurface] (n + 1) = defaultSurface from by
          simp [getS, List.getD_eq_getElem?_getD]] at hc
        exact absurd hc (by decide)

/-! ### C5: unknown output handling -/

/-- C5 counterexample: a colour apply naming an output that no surface
matches does not fail: transition_to_on warns and returns Ok with the
surfaces untouched (colour.rs lines 236-240), refuting the claim that all
three request kinds fail on an unknown output. -/
theorem C5_counterexample :
    transition_to_on [testSurface] ⟨255, 255, 255⟩ Transition.fade 100
      (some "DP-1") WipeFrom.left [] quietEnv = .ok [testSurface] := rfl

/-- C5, amended: when the request names an output want that no surface's
output_name equals, the image transitions, the immediate image apply and
unset all fail, while the colour transition returns Ok with the surfaces
unchanged (a warned no-op). -/
theorem C5_amended (ss : List SurfaceState) (want : String)
    (hnone : ∀ s ∈ ss, s.output_name ≠ some want) :
    (∀ (target : Rgb) (kind : Transition) (duration : Nat) (wf : WipeFrom)
        (tts : List Nat) (envs : Nat → WaitEnv), kind ≠ Transition.none →
        transition_to_on ss target kind duration (some want) wf tts envs
          = .ok ss)
    ∧ (∀ (kind : Transition) (bg : Rgb) (duration : Nat)
        (render : Nat → Nat → List Nat) (tts : List Nat)
        (envs : Nat → WaitEnv),
        image_transition_fresh ss kind bg duration (some want) render tts envs
          = .error ())
    ∧ (∀ (bg : Rgb) (render : Nat → Nat → List Nat) (envs : Nat → WaitEnv),
        apply_image_immediate ss bg (some want) render envs = .error ())
    ∧ Engine.unset ss (some want) = .error () := by
  have hm : ∀ i, i < ss.length →
      surface_matches_output_surface (getS ss i) (some want) = false
      ∧ surface_matches_output (getS ss i) (some want) = false := by
    intro i hi
    have hmem : getS ss i ∈ ss := by
      rw [show getS ss i = ss[i] from by
        simp [getS, List.getD_eq_getElem?_getD, List.getElem?_eq_getElem hi]]
      exact List.getElem_mem hi
    exact ⟨not_matches_surface (hnone _ hmem), not_matches_colour (hnone _ hmem)⟩
  refine ⟨?_, ?_, ?_, ?_⟩
  · intro target kind duration wf tts envs hk
    have hsel : selectedColour ss (some want) = [] := by
      rw [selectedColour, List.filter_eq_nil_iff]
      intro i hi
      rw [List.mem_range] at hi
      rw [(hm i hi).2]
      simp
    simp only [transition_to_on]
    rw [if_neg hk, hsel]
    simp
  · intro kind bg duration render tts envs
    have hany : ((List.range ss.length).any fun i =>
        imageSelected (getS ss i) (some want)) = false := by
      rw [List.any_eq_false]
      intro i hi
      rw [List.mem_range] at hi
      simp [imageSelected, (hm i hi).1]
    simp only [image_transition_fresh]
    rw [if_pos (by rw [hany]; exact Bool.false_ne_true)]
  · intro bg render envs
    have hskip : ∀ i ∈ List.range ss.length,
        imageImmediateOne bg (some want) render envs (ss, 0) i
          = .ok (ss, 0) := by
      intro i hi
      rw [List.mem_range] at hi
      unfold imageImmediateOne
      simp only []
      refine if_pos ?_
      intro hc
      rw [(hm i hi).1] at hc
      exact Bool.false_ne_true hc.2
    have hany2 : ((List.range ss.length).any fun i =>
        surface_usable (getS ss i) &&
        surface_matches_output_surface (getS ss i) (some want)) = false := by
      rw [List.any_eq_false]
      intro i hi
      rw [List.mem_range] at hi
      simp [(hm i hi).1]
    simp only [apply_image_immediate]
    rw [foldSurf_skip _ _ _ hskip]
    simp only [bind, Except.bind]
    rw [if_pos (by rw [hany2]; exact Bool.false_ne_true)]
  · have hany3 : (ss.any fun s => s.output_name == some want) = false := by
      rw [List.any_eq_false]
      intro s hs
      rw [beq_iff_eq]
      exact hnone s hs
    simp only [Engine.unset]
    rw [if_pos (by rw [hany3]; exact Bool.false_ne_true)]

/-- C5 witness: the amended behaviour at a concrete one-surface table whose
output is HDMI-A-1 while the request names DP-1. -/
theorem C5_witness :
    transition_to_on [testSurface] ⟨0, 0, 0⟩ Transition.fade 50 (some "DP-1")
        WipeFrom.left [] quietEnv = .ok [testSurface]
    ∧ image_transition_fresh [testSurface] Transition.fade ⟨0, 0, 0⟩ 50
        (some "DP-1") (fun _ _ => []) [] quietEnv = .error ()
    ∧ apply_image_immediate [testSurface] ⟨0, 0, 0⟩ (some "DP-1")
        (fun _ _ => []) quietEnv = .error ()
    ∧ Engine.unset [testSurface] (some "DP-1") = .error () := by
  have h := C5_amended [testSurface] "DP-1" (by decide)
  exact ⟨h.1 ⟨0, 0, 0⟩ Transition.fade 50 WipeFrom.left [] quietEnv (by decide),
    h.2.1 Transition.fade ⟨0, 0, 0⟩ 50 (fun _ _ => []) [] quietEnv,
    h.2.2.1 ⟨0, 0, 0⟩ (fun _ _ => []) quietEnv, h.2.2.2⟩

/-! ### C1: finalization exactness -/

/-- C1 counterexample: a colour Fade whose target equals the current colour
takes the no-op fast path (colour.rs lines 269-278), which completes Ok but
only updates last_colour and has_image; last_frame is left at None rather
than being set to the exact solid target frame, contradicting the claim for
this completed Fade. -/
theorem C1_counterexample :
    transition_to_on [testSurface] ⟨0, 0, 0⟩ Transition.fade 100 none
      WipeFrom.left [128] quietEnv = .ok [testSurface]
    ∧ testSurface.last_frame = none := ⟨rfl, rfl⟩

/-- C1, amended: outside the colour no-op fast path (i.e. when some selected
surface actually needs painting), a completed colour transition leaves every
selected usable surface with last_frame equal to the exact solid target
frame, last_colour the target and has_image false; a completed fresh image
transition leaves last_frame equal to the exact rendered target frame for
the surface's size, last_colour the background and has_image true; and a
completed cached image transition leaves last_frame equal to the exact
cached frame — all independent of the tt samples taken during the
animation. -/
theorem C1_amended (kind : Transition) (hk : kind ≠ Transition.none) :
    (∀ (ss : List SurfaceState) (target : Rgb) (duration : Nat)
        (output : Option String) (wf : WipeFrom) (tts : List Nat)
        (envs : Nat → WaitEnv) (ss2 : List SurfaceState),
        transition_to_on ss target kind duration output wf tts envs = .ok ss2 →
        needsTransition ss output (captureFromFrames ss output)
          target.xrgb8888 = true →
        ∀ i, surface_usable (getS ss i) = true →
          surface_matches_output (getS ss i) output = true →
          (getS ss2 i).last_frame = some (List.replicate
            ((getS ss i).width * (getS ss i).height) target.xrgb8888)
          ∧ (getS ss2 i).last_colour = target
          ∧ (getS ss2 i).has_image = false)
    ∧ (∀ (ss : List SurfaceState) (bg : Rgb) (duration : Nat)
        (output : Option String) (render : Nat → Nat → List Nat)
        (tts : List Nat) (envs : Nat → WaitEnv) (ss2 : List SurfaceState),
        image_transition_fresh ss kind bg duration output render tts envs
          = .ok ss2 →
        ∀ i, surface_usable (getS ss i) = true →
          surface_matches_output_surface (getS ss i) output = true →
          (getS ss2 i).last_frame
            = some (render (getS ss i).width (getS ss i).height)
          ∧ (getS ss2 i).last_colour = bg
          ∧ (getS ss2 i).has_image = true)
    ∧ (∀ (ss : List SurfaceState) (bg : Rgb) (duration : Nat)
        (output : Option String) (to_frames : List (Option (List Nat)))
        (tts : List Nat) (envs : Nat → WaitEnv) (ss2 : List SurfaceState)
        (finalf : List Nat),
        image_transition_cached ss kind bg duration output to_frames tts envs
          = .ok ss2 →
        ∀ i, to_frames.getD i none = some finalf →
          surface_usable (getS ss i) = true →
          surface_matches_output_surface (getS ss i) output = true →
          (getS ss2 i).last_frame = some finalf
          ∧ (getS ss2 i).last_colour = bg
          ∧ (getS ss2 i).has_image = true) := by
  refine ⟨?_, ?_, ?_⟩
  · intro ss target duration output wf tts envs ss2 h hneeds i hu hm
    simp only [transition_to_on] at h
    rw [if_neg hk, if_neg (selectedColour_ne_nil hu hm),
      if_neg (show ¬¬(needsTransition ss output (captureFromFrames ss output)
        (Rgb.xrgb8888 target) = true) from fun hc => hc hneeds)] at h
    obtain ⟨acc1, hA, h⟩ := except_bind_inv h
    obtain ⟨acc2, hB, h⟩ := except_bind_inv h
    have hss2 : acc2.1 = ss2 := Except.ok.inj h
    obtain ⟨hlen1, hcore1⟩ := colourAnimLoop_core kind wf
      (Rgb.xrgb8888 target) output (captureFromFrames ss output) envs tts
      (ss, 0) acc1 hA
    obtain ⟨hfu, hfm, _, hfw, hfh, _, _, _⟩ := coreOf_flags (hcore1 i)
    have hilt : i < acc1.1.length := by
      rw [hlen1]
      exact usable_lt _ _ hu
    obtain ⟨_, _, hQ⟩ := foldSurf_char
      (colourFinalizeOne target (Rgb.xrgb8888 target) output envs)
      (fun _ s s2 =>
        surface_usable s = true ∧ surface_matches_output s output = true →
        s2.last_frame = some (List.replicate (s.width * s.height)
          (Rgb.xrgb8888 target))
        ∧ s2.last_colour = target ∧ s2.has_image = false)
      (fun acc i acc2 h => (colourFinalizeOne_char _ _ _ _ _ _ _ h))
      (List.range acc1.1.length) acc1 acc2 (List.nodup_range _) hB
    have hQa := hQ i (List.mem_range.mpr hilt)
      ⟨by rw [hfu]; exact hu, by rw [hfm output]; exact hm⟩
    rw [← hss2]
    rw [hfw, hfh] at hQa
    exact hQa
  · intro ss bg duration output render tts envs ss2 h i hu hm
    have hsel : imageSelected (getS ss i) output = true :=
      imageSelected_of_usable hu hm
    have hilt0 : i < ss.length := usable_lt _ _ hu
    have hany : ((List.range ss.length).any fun j =>
        imageSelected (getS ss j) output) = true :=
      List.any_eq_true.mpr ⟨i, List.mem_range.mpr hilt0, hsel⟩
    simp only [image_transition_fresh] at h
    rw [if_neg (fun hc => hc hany)] at h
    obtain ⟨acc0, hA0, h⟩ := except_bind_inv h
    obtain ⟨acc1, hA1, h⟩ := except_bind_inv h
    obtain ⟨acc2, hB, h⟩ := except_bind_inv h
    by_cases hfin : imageAnyFinal acc1.1 output
        (imageToFrames ss output render) = true
    · rw [if_neg (fun hc => hc hfin)] at h
      have hss2 : acc2.1 = ss2 := Except.ok.inj h
      obtain ⟨hlen0, hcore0⟩ := foldSurf_core _
        (imageTickOne_core kind output (imageFromFrames ss output)
          (imageToFrames ss output render) envs 0)
        (List.range ss.length) (ss, 0) acc0 hA0
      obtain ⟨hlen1, hcore1⟩ := imageAnimLoop_core kind output
        (imageFromFrames ss output) (imageToFrames ss output render) envs
        tts acc0 acc1 hA1
      have hcore : ∀ j, coreOf (getS acc1.1 j) = coreOf (getS ss j) :=
        fun j => (hcore1 j).trans (hcore0 j)
      have hlen : acc1.1.length = ss.length := by rw [hlen1, hlen0]
      obtain ⟨hfu, _, hfms, _, _, _, _, _⟩ := coreOf_flags (hcore i)
      have hilt : i < acc1.1.length := by rw [hlen]; exact hilt0
      have hf : (imageToFrames ss output render).getD i none
          = some (render (getS ss i).width (getS ss i).height) := by
        rw [imageToFrames_getD ss output render i hilt0, if_pos hsel]
      obtain ⟨_, _, hQ⟩ := foldSurf_char
        (imageFinalizeOne bg output (imageToFrames ss output render) envs)
        (fun i s s2 => ∀ finalf,
          (imageToFrames ss output render).getD i none = some finalf →
          surface_usable s = true →
          surface_matches_output_surface s output = true →
          s2.last_frame = some finalf ∧ s2.last_colour = bg
          ∧ s2.has_image = true)
        (fun acc i acc2 h => (imageFinalizeOne_char _ _ _ _ _ _ _ h))
        (List.range acc1.1.length) acc1 acc2 (List.nodup_range _) hB
      have hQa := hQ i (List.mem_range.mpr hilt) _ hf
        (by rw [hfu]; exact hu) (by rw [hfms output]; exact hm)
      rw [← hss2]
      exact hQa
    · rw [if_pos hfin] at h
      exact Except.noConfusion h
  · intro ss bg duration output to_frames tts envs ss2 finalf h i hf hu hm
    have hsel : imageSelected (getS ss i) output = true :=
      imageSelected_of_usable hu hm
    have hilt0 : i < ss.length := usable_lt _ _ hu
    have hany : ((List.range ss.length).any fun j =>
        imageSelected (getS ss j) output) = true :=
      List.any_eq_true.mpr ⟨i, List.mem_range.mpr hilt0, hsel⟩
    simp only [image_transition_cached] at h
    rw [if_neg (fun hc => hc hany)] at h
    obtain ⟨acc0, hA0, h⟩ := except_bind_inv h
    obtain ⟨acc1, hA1, h⟩ := except_bind_inv h
    obtain ⟨acc2, hB, h⟩ := except_bind_inv h
    have hss2 : acc2.1 = ss2 := Except.ok.inj h
    obtain ⟨hlen0, hcore0⟩ := foldSurf_core _
      (imageTickOne_core kind output (imageFromFrames ss output) to_frames
        envs 0)
      (List.range ss.length) (ss, 0) acc0 hA0
    obtain ⟨hlen1, hcore1⟩ := imageAnimLoop_core kind output
      (imageFromFrames ss output) to_frames envs tts acc0 acc1 hA1
    have hcore : ∀ j, coreOf (getS acc1.1 j) = coreOf (getS ss j) :=
      fun j => (hcore1 j).trans (hcore0 j)
    have hlen : acc1.1.length = ss.length := by rw [hlen1, hlen0]
    obtain ⟨hfu, _, hfms, _, _, _, _, _⟩ := coreOf_flags (hcore i)
    have hilt : i < acc1.1.length := by rw [hlen]; exact hilt0
    obtain ⟨_, _, hQ⟩ := foldSurf_char
      (imageFinalizeOne bg output to_frames envs)
      (fun i s s2 => ∀ finalf, to_frames.getD i none = some finalf →
        surface_usable s = true →
        surface_matches_output_surface s output = true →
        s2.last_frame = some finalf ∧ s2.last_colour = bg
        ∧ s2.has_image = true)
      (fun acc i acc2 h => (imageFinalizeOne_char _ _ _ _ _ _ _ h))
      (List.range acc1.1.length) acc1 acc2 (List.nodup_range _) hB
    have hQa := hQ i (List.mem_range.mpr hilt) finalf hf
      (by rw [hfu]; exact hu) (by rw [hfms output]; exact hm)
    rw [← hss2]
    exact hQa

set_option maxRecDepth 8000 in
/-- C1 witness: the amended finalization at a concrete run of the colour
fade (white over black) and of a cached image fade on the test surface,
with one mid-animation sample tt = 128. -/
theorem C1_witness :
    (∃ ss2, transition_to_on [testSurface] ⟨255, 255, 255⟩ Transition.fade 100
        none WipeFrom.left [128] quietEnv = .ok ss2
      ∧ (getS ss2 0).last_frame = some (List.replicate 2 16777215)
      ∧ (getS ss2 0).last_colour = ⟨255, 255, 255⟩
      ∧ (getS ss2 0).has_image = false)
    ∧ ∃ ss2, image_transition_cached [testSurface] Transition.fade ⟨1, 2, 3⟩
        100 none [some [7, 9]] [128] quietEnv = .ok ss2
      ∧ (getS ss2 0).last_frame = some [7, 9]
      ∧ (getS ss2 0).last_colour = ⟨1, 2, 3⟩
      ∧ (getS ss2 0).has_image = true := by
  have hneeds : needsTransition [testSurface] none
      (captureFromFrames [testSurface] none)
      (Rgb.xrgb8888 ⟨255, 255, 255⟩) = true := by decide
  constructor
  · have hok : (transition_to_on [testSurface] ⟨255, 255, 255⟩ Transition.fade
        100 none WipeFrom.left [128] quietEnv).isOk = true := rfl
    cases hrun : transition_to_on [testSurface] ⟨255, 255, 255⟩ Transition.fade
        100 none WipeFrom.left [128] quietEnv with
    | error e => rw [hrun] at hok; exact Bool.noConfusion hok
    | ok ss2 =>
        have h := (C1_amended Transition.fade (by decide)).1 [testSurface]
          ⟨255, 255, 255⟩ 100 none WipeFrom.left [128] quietEnv ss2 hrun
          hneeds 0 (by decide) (by decide)
        exact ⟨ss2, rfl, h.1, h.2.1, h.2.2⟩
  · have hok : (image_transition_cached [testSurface] Transition.fade
        ⟨1, 2, 3⟩ 100 none [some [7, 9]] [128] quietEnv).isOk = true := rfl
    cases hrun : image_transition_cached [testSurface] Transition.fade
        ⟨1, 2, 3⟩ 100 none [some [7, 9]] [128] quietEnv with
    | error e => rw [hrun] at hok; exact Bool.noConfusion hok
    | ok ss2 =>
        have h := (C1_amended Transition.fade (by decide)).2.2 [testSurface]
          ⟨1, 2, 3⟩ 100 none [some [7, 9]] [128] quietEnv ss2 [7, 9] hrun
          0 (by decide) (by decide) (by decide)
        exact ⟨ss2, rfl, h.1, h.2.1, h.2.2⟩

end Gesso
